import Mathlib

set_option maxHeartbeats 1000000
set_option maxRecDepth 100000

/-
Shallow embedding of the KrakelOrakel room/game-state coordination engine
(backend socket server: rooms, players, word pool, submission tracking,
voting state machine, board rotation, disconnect handling).

JavaScript collections are modelled by insertion-ordered association lists:
a `Map` is a `List (key × value)` with unique keys in insertion order, a
`Set` is a `List` without duplicates in insertion order.  `Math.random`
driven choices (the word-pool shuffle and the board pick at join) are
oracle parameters carried by the triggering event.  Handler code that can
throw a `TypeError` (reading `.id` of an absent array element, or the
non-null assertion on `gameResults`) is modelled by returning `none`.
-/

namespace Krakel

/-- JS `Map.prototype.get`: the binding of the key, if present. -/
def mapGet {α : Type} : List (String × α) → String → Option α
  | [], _ => none
  | (k, v) :: rest, key => if k = key then some v else mapGet rest key

/-- JS `Map.prototype.set`: update the existing binding in place, else append. -/
def mapSet {α : Type} : List (String × α) → String → α → List (String × α)
  | [], key, v => [(key, v)]
  | (k, w) :: rest, key, v =>
    if k = key then (key, v) :: rest else (k, w) :: mapSet rest key v

/-- JS `Map.prototype.delete`: remove the binding of the key, keep the rest. -/
def mapDelete {α : Type} : List (String × α) → String → List (String × α)
  | [], _ => []
  | (k, w) :: rest, key => if k = key then rest else (k, w) :: mapDelete rest key

/-- JS `Map.prototype.has`. -/
def mapHas {α : Type} (m : List (String × α)) (key : String) : Bool :=
  (mapGet m key).isSome

/-- JS `Set.prototype.add`: append unless already present. -/
def setAdd (s : List String) (w : String) : List String :=
  if w ∈ s then s else s ++ [w]

/-- Per-connection player record (backend `Player` interface). -/
structure Player where
  id : String
  name : String
  submitted : Bool
  joined : Bool
  originalWord : Option String
  rotation : Option Int
  drawing : Option String
  assignedBoard : Option String
deriving Repr, DecidableEq

/-- One entry of `gameResults.drawings`. -/
structure DrawingEntry where
  playerId : String
  playerName : String
  drawing : String
  rotation : Int
deriving Repr, DecidableEq

/-- The `gameResults` record produced when all joined players have submitted. -/
structure GameResults where
  drawings : List DrawingEntry
  allWords : List String
deriving Repr, DecidableEq

/-- The `votingPhase` record of a room. -/
structure VotingPhase where
  currentPlayerIndex : Nat
  votedWords : List String
  playerVotes : List (String × String)
  isComplete : Bool
deriving Repr, DecidableEq

/-- The `gameState` record of a room. -/
structure GameState where
  allSubmitted : Bool
  gameResults : Option GameResults
  votingPhase : Option VotingPhase
deriving Repr, DecidableEq

/-- A game room (`Room` interface; `createdAt` is irrelevant to the claims). -/
structure Room where
  id : String
  players : List (String × Player)
  gameState : GameState
deriving Repr, DecidableEq

/-- Whole-server state: the global `rooms` map and the global `usedWords` set. -/
structure ServerState where
  rooms : List (String × Room)
  usedWords : List String
deriving Repr, DecidableEq

/-- Initial `gameState` of a freshly created room. -/
def initialGameState : GameState :=
  { allSubmitted := false, gameResults := none, votingPhase := none }

/-- A freshly created room (empty players map, initial game state). -/
def freshRoom (code : String) : Room :=
  { id := code, players := [], gameState := initialGameState }

/-- `getOrCreateRoom`: return the existing room, or create an empty one. -/
def getOrCreateRoom (code : String) (rooms : List (String × Room)) :
    Room × List (String × Room) :=
  match mapGet rooms code with
  | some r => (r, rooms)
  | none => (freshRoom code, mapSet rooms code (freshRoom code))

/-- The fixed word catalog of `getRandomWords`. -/
def wordCatalog : List String :=
  ["cat", "dog", "house", "tree", "car", "flower", "bird", "fish", "sun", "moon",
   "mountain", "river", "ocean", "forest", "beach", "stars", "clouds", "rain", "snow",
   "grass", "rocks", "cave", "volcano", "island", "desert", "lake", "waterfall", "bridge",
   "dragon", "unicorn", "wizard", "witch", "fairy", "castle", "knight", "princess",
   "king", "queen", "magic wand", "crystal ball", "flying carpet", "treasure chest"]

/-- `getRandomWords(count)` acting on the global `usedWords` set.  The
`shuffle` parameter abstracts the `Math.random` comparator sort and is, in
the theorems, an arbitrary function (constrained at most to permute its
input).  Note the faithful quirk: when fewer than `count` unused words
remain, the used set is cleared but `availableWords` is not recomputed, so
the selection still happens from the stale filtered list. -/
def getRandomWords (shuffle : List String → List String) (count : Nat)
    (used : List String) : List String × List String :=
  let availableWords := wordCatalog.filter (fun w => decide (w ∉ used))
  let used1 := if availableWords.length < count then [] else used
  let selectedWords := (shuffle availableWords).take count
  (selectedWords, selectedWords.foldl setAdd used1)

/-- `Array.from(room.players.values()).filter(p => p.joined)`. -/
def joinedList (ps : List (String × Player)) : List Player :=
  (ps.map Prod.snd).filter (fun p => p.joined)

/-- `joinedPlayers.map(p => p.originalWord || '').filter(w => w)`. -/
def playerWordsOf (joined : List Player) : List String :=
  (joined.map (fun p => p.originalWord.getD "")).filter (fun w => decide (w ≠ ""))

/-- Lexicographic comparison of char sequences by code unit, as the JS
default sort comparator orders strings. -/
def charsLe : List Char → List Char → Bool
  | [], _ => true
  | _ :: _, [] => false
  | a :: as, b :: bs =>
    if a.val.toNat < b.val.toNat then true
    else if b.val.toNat < a.val.toNat then false
    else charsLe as bs

/-- String comparison used by the sort model. -/
def strLe (a b : String) : Bool := charsLe a.data b.data

/-- Insert a string into a sorted list (JS default lexicographic order). -/
def insertSorted (w : String) : List String → List String
  | [] => [w]
  | x :: xs => if strLe w x then w :: x :: xs else x :: insertSorted w xs

/-- `Array.prototype.sort()` on strings: lexicographic sort. -/
def sortStrings (l : List String) : List String := l.foldr insertSorted []

/-- Server-to-client events (room-wide broadcasts and player-targeted emits). -/
inductive Emit where
  | wordAssigned (sid : String) (word : Option String) (board : Option String)
  | playerCount (code : String) (n : Nat)
  | playerList (code : String) (ps : List Player)
  | allSubmittedMsg (code : String) (b : Bool)
  | gameResultsMsg (code : String) (res : GameResults)
  | votingStarted (code : String) (currentPlayerId currentPlayerName : String)
      (totalPlayers : Nat) (allWords : List String)
  | wordVotedOut (code : String) (word : String) (playerName : String)
      (votedWords : List String)
  | nextPlayerTurn (code : String) (currentPlayerId currentPlayerName : String)
      (playerIndex totalPlayers : Nat)
  | votingComplete (code : String) (score : String) (correctWords totalPlayers : Nat)
      (remainingWords remainingPlayerWords remainingAdditionalWords : List String)
      (votedWords votedPlayerWords votedAdditionalWords : List String)
      (playerVotes : List (String × String))
  | newRoundStarted (code : String)
  | newWord (sid : String) (word : Option String)
  | newBoard (sid : String) (board : Option String)
deriving Repr, DecidableEq

/-- The `votingComplete` payload, including the score computation of the
`voteWord` handler. -/
def votingCompleteEmit (code : String) (joined : List Player)
    (votedWords1 : List String) (results : GameResults)
    (playerVotes1 : List (String × String)) : Emit :=
  let playerWords := playerWordsOf joined
  let remainingPlayerWords := playerWords.filter (fun w => decide (w ∉ votedWords1))
  let correctWords := remainingPlayerWords.length
  let totalPlayers := joined.length
  let score := toString correctWords ++ "/" ++ toString totalPlayers
  let remainingWords := results.allWords.filter (fun w => decide (w ∉ votedWords1))
  Emit.votingComplete code score correctWords totalPlayers
    remainingWords
    (remainingWords.filter (fun w => decide (w ∈ playerWords)))
    (remainingWords.filter (fun w => decide (w ∉ playerWords)))
    votedWords1
    (votedWords1.filter (fun w => decide (w ∈ playerWords)))
    (votedWords1.filter (fun w => decide (w ∉ playerWords)))
    playerVotes1

/-- The `setPlayerName` handler: join the player, allocate a word and a
board (the board chosen by the `Math.random` oracle), emit the targeted
`wordAssigned` and the room-wide count and list. -/
def handleSetPlayerName (shuffle : List String → List String) (board : String)
    (sid name code : String) (s : ServerState) : ServerState × List Emit :=
  let pr := getOrCreateRoom code s.rooms
  let room := pr.1
  let drawn := getRandomWords shuffle 1 s.usedWords
  let player : Player :=
    { id := sid, name := name, submitted := false, joined := true,
      originalWord := drawn.1.get? 0, rotation := none, drawing := none,
      assignedBoard := some board }
  let room1 : Room := { room with players := mapSet room.players sid player }
  let joined := joinedList room1.players
  ({ rooms := mapSet pr.2 code room1, usedWords := drawn.2 },
   [Emit.wordAssigned sid player.originalWord player.assignedBoard,
    Emit.playerCount code joined.length,
    Emit.playerList code joined])

/-- The `submitDrawing` handler.  A submission by an absent or non-joined
player is dropped (after the `getOrCreateRoom` side effect).  When every
joined player has submitted, results are generated, filler words drawn,
and the voting phase is (re)initialised.  Returns `none` on the
`joinedPlayers[0].id` dereference of an empty joined list (unreachable in
this branch, since the accepted submitter is joined). -/
def handleSubmitDrawing (shuffle : List String → List String)
    (sid drawing : String) (rotation : Int) (code : String)
    (s : ServerState) : Option (ServerState × List Emit) :=
  let pr := getOrCreateRoom code s.rooms
  let room := pr.1
  match mapGet room.players sid with
  | none => some ({ s with rooms := pr.2 }, [])
  | some player =>
    if player.joined then
      let player1 : Player :=
        { player with submitted := true, drawing := some drawing, rotation := some rotation }
      let players1 := mapSet room.players sid player1
      let joined := joinedList players1
      let allSub := joined.all (fun p => p.submitted)
      if allSub then
        let drawings := (joined.filter (fun p => decide (p.drawing.getD "" ≠ ""))).map
          (fun p => { playerId := p.id, playerName := p.name,
                      drawing := p.drawing.getD "", rotation := p.rotation.getD 0 })
        let drawn := getRandomWords shuffle joined.length s.usedWords
        let allWords := sortStrings (playerWordsOf joined ++ drawn.1)
        let results : GameResults := { drawings := drawings, allWords := allWords }
        match joined with
        | [] => none
        | j0 :: _ =>
          let vp : VotingPhase :=
            { currentPlayerIndex := 0, votedWords := [], playerVotes := [], isComplete := false }
          let room1 : Room := { room with
            players := players1
            gameState :=
              { allSubmitted := true, gameResults := some results, votingPhase := some vp } }
          some ({ rooms := mapSet pr.2 code room1, usedWords := drawn.2 },
            [Emit.gameResultsMsg code results,
             Emit.votingStarted code j0.id j0.name joined.length allWords,
             Emit.playerList code joined,
             Emit.allSubmittedMsg code true])
      else
        let room1 : Room := { room with
          players := players1
          gameState := { room.gameState with allSubmitted := false } }
        some ({ s with rooms := mapSet pr.2 code room1 },
          [Emit.playerList code joined, Emit.allSubmittedMsg code false])
    else some ({ s with rooms := pr.2 }, [])

/-- The `voteWord` handler.  Rejections (no active phase, phase complete,
absent or non-joined caller, not the current player) fall through with no
mutation beyond the `getOrCreateRoom` side effect and no emit.  The
current player is looked up in the live joined list at the stored index;
an out-of-range index dereferences `undefined.id` and is modelled as
`none` (a thrown `TypeError`). -/
def handleVoteWord (sid word code : String) (s : ServerState) :
    Option (ServerState × List Emit) :=
  let pr := getOrCreateRoom code s.rooms
  let room := pr.1
  let s1 : ServerState := { s with rooms := pr.2 }
  match room.gameState.votingPhase with
  | none => some (s1, [])
  | some vp =>
    if vp.isComplete then some (s1, [])
    else
      match mapGet room.players sid with
      | none => some (s1, [])
      | some player =>
        if player.joined then
          let joined := joinedList room.players
          match joined.get? vp.currentPlayerIndex with
          | none => none
          | some currentPlayer =>
            if currentPlayer.id = sid then
              let votedWords1 := setAdd vp.votedWords word
              let playerVotes1 := mapSet vp.playerVotes sid word
              let voteEmit := Emit.wordVotedOut code word player.name votedWords1
              let idx1 := vp.currentPlayerIndex + 1
              if joined.length ≤ idx1 then
                match room.gameState.gameResults with
                | none => none
                | some results =>
                  let vp1 : VotingPhase :=
                    { currentPlayerIndex := idx1, votedWords := votedWords1,
                      playerVotes := playerVotes1, isComplete := true }
                  let room1 : Room :=
                    { room with gameState := { room.gameState with votingPhase := some vp1 } }
                  some ({ s1 with rooms := mapSet pr.2 code room1 },
                    [voteEmit, votingCompleteEmit code joined votedWords1 results playerVotes1])
              else
                match joined.get? idx1 with
                | none => none
                | some nextPlayer =>
                  let vp1 : VotingPhase :=
                    { currentPlayerIndex := idx1, votedWords := votedWords1,
                      playerVotes := playerVotes1, isComplete := false }
                  let room1 : Room :=
                    { room with gameState := { room.gameState with votingPhase := some vp1 } }
                  some ({ s1 with rooms := mapSet pr.2 code room1 },
                    [voteEmit,
                     Emit.nextPlayerTurn code nextPlayer.id nextPlayer.name (idx1 + 1)
                       joined.length])
            else some (s1, [])
        else some (s1, [])

/-- The per-player mutation of the `newRound` handler: clear submission,
assign the freshly drawn word at this position, and take the board of the
next joined player (with wraparound). -/
def rotatePlayer (newWords : List String) (currentBoards : List (Option String))
    (n : Nat) (i : Nat) (p : Player) : Player :=
  { p with
    submitted := false
    drawing := none
    originalWord := newWords.get? i
    assignedBoard := (currentBoards.get? ((i + 1) % n)).getD none }

/-- Apply `f` to the joined players of the registry, numbering them by
their position among the joined players, and leave the rest unchanged. -/
def updateJoined (f : Nat → Player → Player) :
    Nat → List (String × Player) → List (String × Player)
  | _, [] => []
  | i, (k, p) :: rest =>
    if p.joined then (k, f i p) :: updateJoined f (i + 1) rest
    else (k, p) :: updateJoined f i rest

/-- The `newRound` handler: reset the game state, redraw one word per
joined player, rotate the boards by one position, and broadcast. -/
def handleNewRound (shuffle : List String → List String) (sid code : String)
    (s : ServerState) : ServerState × List Emit :=
  let pr := getOrCreateRoom code s.rooms
  let room := pr.1
  match mapGet room.players sid with
  | none => ({ s with rooms := pr.2 }, [])
  | some player =>
    if player.joined then
      let joined := joinedList room.players
      let drawn := getRandomWords shuffle joined.length s.usedWords
      let currentBoards := joined.map (fun p => p.assignedBoard)
      let players1 := updateJoined (rotatePlayer drawn.1 currentBoards joined.length) 0 room.players
      let room1 : Room := { room with players := players1, gameState := initialGameState }
      let joined1 := joinedList players1
      ({ rooms := mapSet pr.2 code room1, usedWords := drawn.2 },
       Emit.newRoundStarted code ::
       (joined1.enum.foldr
         (fun iv acc =>
           Emit.newWord iv.2.id (drawn.1.get? iv.1) ::
           Emit.newBoard iv.2.id iv.2.assignedBoard :: acc) []) ++
       [Emit.playerList code joined1, Emit.allSubmittedMsg code false])
    else ({ s with rooms := pr.2 }, [])

/-- The `unsubmitDrawing` handler. -/
def handleUnsubmit (sid code : String) (s : ServerState) : ServerState × List Emit :=
  let pr := getOrCreateRoom code s.rooms
  let room := pr.1
  match mapGet room.players sid with
  | none => ({ s with rooms := pr.2 }, [])
  | some player =>
    if player.joined then
      let player1 : Player := { player with submitted := false, drawing := none }
      let players1 := mapSet room.players sid player1
      let room1 : Room := { room with
        players := players1
        gameState := { room.gameState with allSubmitted := false } }
      let joined := joinedList players1
      ({ s with rooms := mapSet pr.2 code room1 },
       [Emit.playerList code joined, Emit.allSubmittedMsg code false])
    else ({ s with rooms := pr.2 }, [])

/-- The room-scan of the `disconnect` handler: remove the player from the
first room containing them; delete the room if no joined player remains,
else recompute `allSubmitted` and broadcast. -/
def disconnectRooms (sid : String) :
    List (String × Room) → List (String × Room) × List Emit
  | [] => ([], [])
  | (code, room) :: rest =>
    if mapHas room.players sid then
      let players1 := mapDelete room.players sid
      let joined := joinedList players1
      if joined.length = 0 then (rest, [])
      else
        let allSub := joined.all (fun p => p.submitted)
        let room1 : Room := { room with
          players := players1
          gameState := { room.gameState with allSubmitted := allSub } }
        ((code, room1) :: rest,
         [Emit.playerCount code joined.length, Emit.playerList code joined,
          Emit.allSubmittedMsg code allSub])
    else
      let pr := disconnectRooms sid rest
      ((code, room) :: pr.1, pr.2)

/-- The `disconnect` handler. -/
def handleDisconnect (sid : String) (s : ServerState) : ServerState × List Emit :=
  let pr := disconnectRooms sid s.rooms
  ({ s with rooms := pr.1 }, pr.2)

/-- Inbound events.  The `shuffle` component carries the `Math.random`
choice of the word draw the event triggers; `board` carries the random
board pick at join. -/
inductive Event where
  | setName (sid name code board : String) (shuffle : List String → List String)
  | submit (sid drawing : String) (rotation : Int) (code : String)
      (shuffle : List String → List String)
  | vote (sid word code : String)
  | newRound (sid code : String) (shuffle : List String → List String)
  | unsubmit (sid code : String)
  | disconnect (sid : String)

/-- One event-processing step of the server.  `none` models a thrown
`TypeError` inside the handler. -/
def step : Event → ServerState → Option (ServerState × List Emit)
  | .setName sid name code board shuffle, s =>
    some (handleSetPlayerName shuffle board sid name code s)
  | .submit sid d rot code shuffle, s => handleSubmitDrawing shuffle sid d rot code s
  | .vote sid word code, s => handleVoteWord sid word code s
  | .newRound sid code shuffle, s => some (handleNewRound shuffle sid code s)
  | .unsubmit sid code, s => some (handleUnsubmit sid code s)
  | .disconnect sid, s => some (handleDisconnect sid s)

/-- Process a list of events in order, accumulating all emits. -/
def run : ServerState → List Event → Option (ServerState × List Emit)
  | s, [] => some (s, [])
  | s, e :: es =>
    match step e s with
    | none => none
    | some (s1, out1) =>
      match run s1 es with
      | none => none
      | some (s2, out2) => some (s2, out1 ++ out2)

/-- The initial server state: no rooms, empty used-word set. -/
def initState : ServerState := { rooms := [], usedWords := [] }

end Krakel

namespace Krakel

/-- Is the event a transport-level disconnect? -/
def Event.isDisconnect : Event → Bool
  | .disconnect _ => true
  | _ => false

/-- The score field of a `votingComplete` emit. -/
def scoreOf : Emit → Option String
  | Emit.votingComplete _ score _ _ _ _ _ _ _ _ _ => some score
  | _ => none

/-- Well-formedness of a player registry: unique keys, and each player is
stored under their own id (both hold by construction of the handlers). -/
def WFplayers (ps : List (String × Player)) : Prop :=
  (ps.map Prod.fst).Nodup ∧ ∀ kp ∈ ps, (kp.2).id = kp.1

theorem getOrCreateRoom_of_mem {rooms : List (String × Room)} {code : String} {r : Room}
    (h : mapGet rooms code = some r) : getOrCreateRoom code rooms = (r, rooms) := by
  simp [getOrCreateRoom, h]

theorem getOrCreateRoom_of_absent {rooms : List (String × Room)} {code : String}
    (h : mapGet rooms code = none) :
    getOrCreateRoom code rooms = (freshRoom code, mapSet rooms code (freshRoom code)) := by
  simp [getOrCreateRoom, h]

theorem mapGet_mapSet_self {α : Type} (m : List (String × α)) (k : String) (v : α) :
    mapGet (mapSet m k v) k = some v := by
  induction m with
  | nil => simp [mapGet, mapSet]
  | cons kv rest ih =>
    obtain ⟨k0, v0⟩ := kv
    by_cases h : k0 = k
    · simp [mapSet, h, mapGet]
    · simp [mapSet, h, mapGet, ih]

theorem mapGet_mapSet_ne {α : Type} (m : List (String × α)) (k k1 : String) (v : α)
    (h : k1 ≠ k) : mapGet (mapSet m k v) k1 = mapGet m k1 := by
  have hk : ¬ k = k1 := fun h1 => h h1.symm
  induction m with
  | nil =>
    simp only [mapSet, mapGet]
    rw [if_neg hk]
  | cons kv rest ih =>
    obtain ⟨k0, v0⟩ := kv
    by_cases h0 : k0 = k
    · subst h0
      simp only [mapSet, if_pos rfl, mapGet]
      rw [if_neg hk, if_neg hk]
    · simp only [mapSet, if_neg h0, mapGet]
      by_cases h1 : k0 = k1
      · rw [if_pos h1, if_pos h1]
      · rw [if_neg h1, if_neg h1, ih]

theorem mem_mapSet {α : Type} {m : List (String × α)} {k : String} {v : α}
    {x : String × α} (h : x ∈ mapSet m k v) : x = (k, v) ∨ x ∈ m := by
  induction m with
  | nil =>
    simp only [mapSet, List.mem_singleton] at h
    exact Or.inl h
  | cons kv rest ih =>
    obtain ⟨k0, v0⟩ := kv
    by_cases h0 : k0 = k
    · simp only [mapSet, if_pos h0] at h
      rcases List.mem_cons.mp h with h1 | h1
      · exact Or.inl h1
      · exact Or.inr (List.mem_cons_of_mem _ h1)
    · simp only [mapSet, if_neg h0] at h
      rcases List.mem_cons.mp h with h1 | h1
      · subst h1
        exact Or.inr (List.mem_cons_self _ _)
      · rcases ih h1 with h2 | h2
        · exact Or.inl h2
        · exact Or.inr (List.mem_cons_of_mem _ h2)

theorem mapGet_mem {α : Type} {m : List (String × α)} {k : String} {v : α}
    (h : mapGet m k = some v) : (k, v) ∈ m := by
  induction m with
  | nil => simp [mapGet] at h
  | cons kv rest ih =>
    obtain ⟨k0, v0⟩ := kv
    simp only [mapGet] at h
    by_cases h0 : k0 = k
    · rw [if_pos h0] at h
      subst h0
      simp only [Option.some.injEq] at h
      subst h
      exact List.mem_cons_self _ _
    · rw [if_neg h0] at h
      exact List.mem_cons_of_mem _ (ih h)

end Krakel

namespace Krakel

/-- The voting phase after one accepted vote at the stored index. -/
def advanceVp (vp : VotingPhase) (sid word : String) (complete : Bool) : VotingPhase :=
  { currentPlayerIndex := vp.currentPlayerIndex + 1
    votedWords := setAdd vp.votedWords word
    playerVotes := mapSet vp.playerVotes sid word
    isComplete := complete }

/-- The room with its voting phase replaced. -/
def withPhase (r : Room) (vp1 : VotingPhase) : Room :=
  { r with gameState := { r.gameState with votingPhase := some vp1 } }

/-- The server state after an accepted vote updated room `code` from `r`. -/
def voteResultState (s : ServerState) (code : String) (r : Room)
    (vp1 : VotingPhase) : ServerState :=
  { s with rooms := mapSet s.rooms code (withPhase r vp1) }

theorem vote_accepted_next
    (s : ServerState) (code sid word : String) (r : Room) (vp : VotingPhase)
    (p cp np : Player)
    (hr : mapGet s.rooms code = some r)
    (hvp : r.gameState.votingPhase = some vp)
    (hc : vp.isComplete = false)
    (hp : mapGet r.players sid = some p)
    (hj : p.joined = true)
    (hcp : (joinedList r.players).get? vp.currentPlayerIndex = some cp)
    (hid : cp.id = sid)
    (hlt : vp.currentPlayerIndex + 1 < (joinedList r.players).length)
    (hnp : (joinedList r.players).get? (vp.currentPlayerIndex + 1) = some np) :
    step (Event.vote sid word code) s =
      some (voteResultState s code r (advanceVp vp sid word false),
        [Emit.wordVotedOut code word p.name (setAdd vp.votedWords word),
         Emit.nextPlayerTurn code np.id np.name (vp.currentPlayerIndex + 1 + 1)
           (joinedList r.players).length]) := by
  simp only [step, handleVoteWord, getOrCreateRoom_of_mem hr, hvp, hc, hp, hj,
    Bool.false_eq_true, if_false, if_true, hcp, hid, if_pos rfl,
    voteResultState, advanceVp, withPhase]
  rw [if_neg (by omega), hnp]

theorem vote_accepted_complete
    (s : ServerState) (code sid word : String) (r : Room) (vp : VotingPhase)
    (p cp : Player) (results : GameResults)
    (hr : mapGet s.rooms code = some r)
    (hvp : r.gameState.votingPhase = some vp)
    (hc : vp.isComplete = false)
    (hp : mapGet r.players sid = some p)
    (hj : p.joined = true)
    (hcp : (joinedList r.players).get? vp.currentPlayerIndex = some cp)
    (hid : cp.id = sid)
    (hge : (joinedList r.players).length ≤ vp.currentPlayerIndex + 1)
    (hres : r.gameState.gameResults = some results) :
    step (Event.vote sid word code) s =
      some (voteResultState s code r (advanceVp vp sid word true),
        [Emit.wordVotedOut code word p.name (setAdd vp.votedWords word),
         votingCompleteEmit code (joinedList r.players) (setAdd vp.votedWords word)
           results (mapSet vp.playerVotes sid word)]) := by
  simp only [step, handleVoteWord, getOrCreateRoom_of_mem hr, hvp, hc, hp, hj,
    Bool.false_eq_true, if_false, if_true, hcp, hid, if_pos rfl, hres,
    voteResultState, advanceVp, withPhase]
  rw [if_pos hge]

end Krakel

namespace Krakel

/-- Silent-rejection condition of the `voteWord` handler (the out-of-range
current-player lookup is excluded: that case throws instead of rejecting). -/
def voteRejected (sid : String) (room : Room) : Bool :=
  match room.gameState.votingPhase with
  | none => true
  | some vp =>
    vp.isComplete ||
    match mapGet room.players sid with
    | none => true
    | some player =>
      !player.joined ||
      match (joinedList room.players).get? vp.currentPlayerIndex with
      | none => false
      | some currentPlayer => decide (currentPlayer.id ≠ sid)

/-- Rejection condition of `submitDrawing` / `newRound` / `unsubmitDrawing`:
the caller is absent from the room or not joined. -/
def callerRejected (sid : String) (room : Room) : Bool :=
  match mapGet room.players sid with
  | none => true
  | some player => !player.joined

/-- Silent-rejection condition of an inbound event against the current
server state (`setPlayerName` is never rejected). -/
def eventRejected (s : ServerState) : Event → Bool
  | .setName _ _ _ _ _ => false
  | .submit sid _ _ code _ => callerRejected sid (getOrCreateRoom code s.rooms).1
  | .vote sid _ code => voteRejected sid (getOrCreateRoom code s.rooms).1
  | .newRound sid code _ => callerRejected sid (getOrCreateRoom code s.rooms).1
  | .unsubmit sid code => callerRejected sid (getOrCreateRoom code s.rooms).1
  | .disconnect sid => s.rooms.all (fun cr => !mapHas cr.2.players sid)

/-- The result a silently rejected event produces: no emit, and no state
change beyond the `getOrCreateRoom` insertion of a fresh empty room when
the event referenced an unknown room code. -/
def rejectedResult (s : ServerState) : Event → ServerState × List Emit
  | .disconnect _ => (s, [])
  | .setName _ _ code _ _ => ({ s with rooms := (getOrCreateRoom code s.rooms).2 }, [])
  | .submit _ _ _ code _ => ({ s with rooms := (getOrCreateRoom code s.rooms).2 }, [])
  | .vote _ _ code => ({ s with rooms := (getOrCreateRoom code s.rooms).2 }, [])
  | .newRound _ code _ => ({ s with rooms := (getOrCreateRoom code s.rooms).2 }, [])
  | .unsubmit _ code => ({ s with rooms := (getOrCreateRoom code s.rooms).2 }, [])

theorem disconnectRooms_miss (sid : String) (rooms : List (String × Room))
    (h : ∀ cr ∈ rooms, mapHas cr.2.players sid = false) :
    disconnectRooms sid rooms = (rooms, []) := by
  induction rooms with
  | nil => rfl
  | cons cr rest ih =>
    obtain ⟨code, room⟩ := cr
    have h0 : mapHas room.players sid = false := h (code, room) (List.mem_cons_self _ _)
    simp only [disconnectRooms, h0, Bool.false_eq_true, if_false,
      ih (fun x hx => h x (List.mem_cons_of_mem _ hx))]

end Krakel

namespace Krakel

/-- C6 (amended): a malformed or unauthorized inbound event — a `voteWord`
while voting is inactive or complete, or not by the current player, or any
of these events by an absent or non-joined caller, or a disconnect of an
unknown connection — is dropped silently: nothing is broadcast and no room
state is mutated, except that referencing an unknown room code inserts a
fresh empty room into the registry (the `getOrCreateRoom` side effect that
refutes the original "no room is created" wording). -/
theorem C6_silent_rejection (s : ServerState) (e : Event)
    (h : eventRejected s e = true) :
    step e s = some (rejectedResult s e) := by
  cases e with
  | setName sid name code board sh => simp [eventRejected] at h
  | submit sid d rot code sh =>
    simp only [eventRejected, callerRejected] at h
    simp only [step, handleSubmitDrawing, rejectedResult]
    cases hm : mapGet (getOrCreateRoom code s.rooms).1.players sid with
    | none => simp [hm]
    | some player =>
      rw [hm] at h
      simp only [Bool.not_eq_true'] at h
      simp [hm, h]
  | vote sid word code =>
    simp only [eventRejected, voteRejected] at h
    simp only [step, handleVoteWord, rejectedResult]
    cases hvp : (getOrCreateRoom code s.rooms).1.gameState.votingPhase with
    | none => simp [hvp]
    | some vp =>
      rw [hvp] at h
      simp only [Bool.or_eq_true] at h
      cases hcomp : vp.isComplete with
      | true => simp [hvp, hcomp]
      | false =>
        rcases h with h | h
        · rw [hcomp] at h; exact absurd h (by simp)
        · cases hm : mapGet (getOrCreateRoom code s.rooms).1.players sid with
          | none => simp [hvp, hcomp, hm]
          | some player =>
            rw [hm] at h
            simp only [Bool.or_eq_true, Bool.not_eq_true'] at h
            rcases h with h | h
            · simp [hvp, hcomp, hm, h]
            · cases hcp : (joinedList (getOrCreateRoom code s.rooms).1.players).get?
                  vp.currentPlayerIndex with
              | none => rw [hcp] at h; exact absurd h (by simp)
              | some cp =>
                rw [hcp] at h
                simp only [decide_eq_true_eq] at h
                cases hjo : player.joined with
                | false => simp [hvp, hcomp, hm, hjo]
                | true =>
                  simp only [hvp, hcomp, hm, hjo, Bool.false_eq_true, if_false, if_true]
                  rw [hcp]
                  simp [h]
  | newRound sid code sh =>
    simp only [eventRejected, callerRejected] at h
    simp only [step, handleNewRound, rejectedResult]
    cases hm : mapGet (getOrCreateRoom code s.rooms).1.players sid with
    | none => simp [hm]
    | some player =>
      rw [hm] at h
      simp only [Bool.not_eq_true'] at h
      simp [hm, h]
  | unsubmit sid code =>
    simp only [eventRejected, callerRejected] at h
    simp only [step, handleUnsubmit, rejectedResult]
    cases hm : mapGet (getOrCreateRoom code s.rooms).1.players sid with
    | none => simp [hm]
    | some player =>
      rw [hm] at h
      simp only [Bool.not_eq_true'] at h
      simp [hm, h]
  | disconnect sid =>
    simp only [eventRejected, List.all_eq_true, Bool.not_eq_true'] at h
    simp only [step, handleDisconnect, rejectedResult,
      disconnectRooms_miss sid s.rooms h]

end Krakel

namespace Krakel

/-- C2: the word-pool draw does NOT fulfil its contract at exhaustion.
With 41 of the 42 catalog words used, `draw(2)` clears the used set but
then selects from the stale one-element `availableWords` list, returning
only 1 word although the catalog has 42 ≥ 2 entries; the used set ends up
holding just that word.  (The normal-case contract — exactly `n` fresh
pairwise-distinct words — holds only while enough unused words remain.) -/
theorem C2_reset_draw_shortfall :
    getRandomWords id 2 (wordCatalog.take 41) = (["treasure chest"], ["treasure chest"]) ∧
    (getRandomWords id 2 (wordCatalog.take 41)).1.length = 1 ∧
    2 ≤ wordCatalog.length := by decide

/-- Event trace for C9: two players join room V, 21 `newRound` calls
exhaust the 42-word catalog (the 21st draw hits the stale-list reset and
assigns no words), then both submit. -/
def C9trace : List Event :=
  [Event.setName "u1" "A" "V" "b1" id,
   Event.setName "u2" "B" "V" "b2" id] ++
  (List.replicate 21 (Event.newRound "u1" "V" id)) ++
  [Event.submit "u1" "d1" 0 "V" id,
   Event.submit "u2" "d2" 0 "V" id]

/-- C9: the generated `allWords` does not always have 2 × N entries.  On
`C9trace` the room reaches all-submitted with N = 2 joined players, yet
`allWords` is `["cat", "dog"]` — 2 entries, not 4 — because the word-pool
exhaustion left both players without an assigned word and the empty
strings are filtered out of `originalWords`. -/
theorem C9_allwords_shortfall :
    (run initState C9trace).map
      (fun r => (mapGet r.1.rooms "V").map
        (fun rm => ((joinedList rm.players).length,
                    rm.gameState.gameResults.map (fun g => g.allWords)))) =
      some (some (2, some ["cat", "dog"])) ∧ (2 : Nat) ≠ 2 * 2 := by
  exact ⟨by decide, by decide⟩

/-- C6 counterexample: a `voteWord` naming an unknown room code is
rejected, but `getOrCreateRoom` has already inserted a brand-new room
under that code — state IS mutated, refuting "no room is created". -/
theorem C6_counterexample :
    step (Event.vote "v1" "w" "NOPE") initState =
      some ({ rooms := [("NOPE", freshRoom "NOPE")], usedWords := [] }, []) ∧
    initState.rooms = [] := by decide

/-- Concrete mid-vote room for the C6 witness: two joined players, an
active incomplete voting phase whose current player is the first one. -/
def C6state : ServerState :=
  { rooms := [("W",
      { id := "W",
        players :=
          [("a", { id := "a", name := "A", submitted := true, joined := true,
                   originalWord := some "cat", rotation := some 0,
                   drawing := some "d", assignedBoard := some "b1" }),
           ("b", { id := "b", name := "B", submitted := true, joined := true,
                   originalWord := some "dog", rotation := some 0,
                   drawing := some "d", assignedBoard := some "b2" })],
        gameState :=
          { allSubmitted := true,
            gameResults := some { drawings := [], allWords := ["cat", "dog", "sun", "tree"] },
            votingPhase := some
              { currentPlayerIndex := 0, votedWords := [], playerVotes := [],
                isComplete := false } } })],
    usedWords := ["cat", "dog", "sun", "tree"] }

/-- C6 witness: an out-of-turn `voteWord` (player b votes while it is
player a's turn) at the concrete state `C6state` is silently dropped. -/
theorem C6_witness :
    step (Event.vote "b" "x" "W") C6state =
      some (rejectedResult C6state (Event.vote "b" "x" "W")) :=
  C6_silent_rejection C6state (Event.vote "b" "x" "W") (by decide)

end Krakel

namespace Krakel

/-- The player update performed by an accepted `submitDrawing`. -/
def submitPlayer (p : Player) (d : String) (rot : Int) : Player :=
  { p with submitted := true, drawing := some d, rotation := some rot }

/-- C4 (amended): round results are generated and a voting phase is
(re)initialised on EVERY accepted `submitDrawing` that leaves all joined
players submitted — the handler tests the recomputed `allSubmitted` flag,
not its false-to-true transition — so a joined player re-submitting while
the room is already all-submitted regenerates results and resets the
voting phase; only submissions by absent or non-joined players are no-ops. -/
theorem C4_resubmission (s : ServerState) (code sid d : String) (rot : Int)
    (sh : List String → List String) (r : Room) (p j0 : Player) (rest : List Player)
    (hr : mapGet s.rooms code = some r)
    (hp : mapGet r.players sid = some p)
    (hj : p.joined = true)
    (hjl : joinedList (mapSet r.players sid (submitPlayer p d rot)) = j0 :: rest)
    (hall : (j0 :: rest).all (fun q => q.submitted) = true) :
    ∃ s1 es,
      step (Event.submit sid d rot code sh) s = some (s1, es) ∧
      (mapGet s1.rooms code).map
        (fun rm => (rm.gameState.allSubmitted, rm.gameState.votingPhase)) =
        some (true, some { currentPlayerIndex := 0, votedWords := [],
                           playerVotes := [], isComplete := false }) ∧
      ∃ res,
        (mapGet s1.rooms code).bind (fun rm => rm.gameState.gameResults) = some res ∧
        Emit.votingStarted code j0.id j0.name (j0 :: rest).length res.allWords ∈ es := by
  have hjl1 : joinedList (mapSet r.players sid
      { p with submitted := true, drawing := some d, rotation := some rot }) = j0 :: rest := hjl
  simp only [step, handleSubmitDrawing, getOrCreateRoom_of_mem hr, hp]
  rw [if_pos hj, hjl1, hall]
  simp only [eq_self_iff_true, if_true]
  refine ⟨_, _, rfl, ?_, ?_⟩
  · rw [mapGet_mapSet_self]
    rfl
  · rw [mapGet_mapSet_self]
    exact ⟨_, rfl, List.mem_cons_of_mem _ (List.mem_cons_self _ _)⟩

end Krakel

namespace Krakel

/-- Event trace for the C4 counterexample: one player joins room U and
submits (results generated, voting opened), votes (voting completes), and
then re-sends `submitDrawing` while the room is already all-submitted. -/
def C4trace : List Event :=
  [Event.setName "s1" "A" "U" "b1" id,
   Event.submit "s1" "d1" 0 "U" id,
   Event.vote "s1" "cat" "U",
   Event.submit "s1" "d2" 0 "U" id]

/-- C4 counterexample: after the first three events the room is
all-submitted with a COMPLETED voting phase and results
`["cat", "dog"]`; the fourth event — a `submitDrawing` arriving while the
room is already in the all-submitted state, sent by a joined player —
generates new results (`["cat", "house"]`, drawing a fresh filler word)
and resets the voting phase to a fresh incomplete one, without any
false-to-true transition of `allSubmitted`. -/
theorem C4_counterexample :
    (run initState (C4trace.take 3)).map
      (fun r => (mapGet r.1.rooms "U").map
        (fun rm => (rm.gameState.allSubmitted, rm.gameState.votingPhase,
                    rm.gameState.gameResults.map (fun g => g.allWords)))) =
      some (some (true,
        some { currentPlayerIndex := 1, votedWords := ["cat"],
               playerVotes := [("s1", "cat")], isComplete := true },
        some ["cat", "dog"])) ∧
    (run initState C4trace).map
      (fun r => (mapGet r.1.rooms "U").map
        (fun rm => (rm.gameState.allSubmitted, rm.gameState.votingPhase,
                    rm.gameState.gameResults.map (fun g => g.allWords)))) =
      some (some (true,
        some { currentPlayerIndex := 0, votedWords := [],
               playerVotes := [], isComplete := false },
        some ["cat", "house"])) := by
  exact ⟨by decide, by decide⟩

/-- The already-submitted player of the C4 witness state. -/
def C4player : Player :=
  { id := "s1", name := "A", submitted := true, joined := true,
    originalWord := some "cat", rotation := some 0,
    drawing := some "d1", assignedBoard := some "b1" }

/-- The C4 witness room: all-submitted, with results and a voting phase. -/
def C4room : Room :=
  { id := "U", players := [("s1", C4player)],
    gameState :=
      { allSubmitted := true,
        gameResults := some { drawings := [], allWords := ["cat", "dog"] },
        votingPhase := some
          { currentPlayerIndex := 0, votedWords := [], playerVotes := [],
            isComplete := false } } }

/-- The C4 witness server state. -/
def C4state : ServerState :=
  { rooms := [("U", C4room)], usedWords := ["cat", "dog"] }

/-- C4 witness: the re-submission theorem applied to a concrete
already-all-submitted room. -/
theorem C4_witness :
    ∃ s1 es,
      step (Event.submit "s1" "d2" 0 "U" id) C4state = some (s1, es) ∧
      (mapGet s1.rooms "U").map
        (fun rm => (rm.gameState.allSubmitted, rm.gameState.votingPhase)) =
        some (true, some { currentPlayerIndex := 0, votedWords := [],
                           playerVotes := [], isComplete := false }) ∧
      ∃ res,
        (mapGet s1.rooms "U").bind (fun rm => rm.gameState.gameResults) = some res ∧
        Emit.votingStarted "U" (submitPlayer C4player "d2" 0).id
          (submitPlayer C4player "d2" 0).name
          [submitPlayer C4player "d2" 0].length res.allWords ∈ es :=
  C4_resubmission C4state "U" "s1" "d2" 0 id C4room C4player
    (submitPlayer C4player "d2" 0) [] (by rfl) (by rfl) (by rfl) (by rfl) (by decide)

end Krakel

namespace Krakel

theorem mapGet_eq_none_of_not_mem_keys {α : Type} (m : List (String × α)) (k : String)
    (h : k ∉ m.map Prod.fst) : mapGet m k = none := by
  induction m with
  | nil => rfl
  | cons kv rest ih =>
    obtain ⟨k0, v0⟩ := kv
    simp only [List.map_cons, List.mem_cons, not_or] at h
    simp only [mapGet, if_neg (fun hh : k0 = k => h.1 hh.symm), ih h.2]

theorem disconnectRooms_delete (sid : String) (pre post : List (String × Room))
    (code : String) (r : Room)
    (hpre : ∀ cr ∈ pre, mapHas cr.2.players sid = false)
    (hit : mapHas r.players sid = true)
    (hempty : (joinedList (mapDelete r.players sid)).length = 0) :
    disconnectRooms sid (pre ++ (code, r) :: post) = (pre ++ post, []) := by
  induction pre with
  | nil =>
    simp only [List.nil_append, disconnectRooms, hit, if_true, hempty, if_pos rfl]
  | cons cr rest ih =>
    obtain ⟨c0, r0⟩ := cr
    have h0 : mapHas r0.players sid = false := hpre (c0, r0) (List.mem_cons_self _ _)
    simp [disconnectRooms, h0, ih (fun x hx => hpre x (List.mem_cons_of_mem _ hx))]

/-- C7: room lifecycle.  (a) When the last joined player of a room
disconnects (the room being the first one containing that connection),
the room is removed from the registry and nothing is broadcast; its code
no longer resolves.  (b) A later `setPlayerName` referencing a room code
absent from the registry creates a brand-new room containing only the new
player and the initial game state — no results, voting state or players
survive from any previously deleted room. -/
theorem C7_room_lifecycle :
    (∀ (pre post : List (String × Room)) (code : String) (r : Room)
       (u : List String) (sid : String),
      (∀ cr ∈ pre, mapHas cr.2.players sid = false) →
      mapHas r.players sid = true →
      (joinedList (mapDelete r.players sid)).length = 0 →
      ((pre ++ (code, r) :: post).map Prod.fst).Nodup →
      step (Event.disconnect sid) { rooms := pre ++ (code, r) :: post, usedWords := u } =
        some ({ rooms := pre ++ post, usedWords := u }, []) ∧
      mapGet (pre ++ post) code = none) ∧
    (∀ (s : ServerState) (code : String), mapGet s.rooms code = none →
      ∀ (sid name board : String) (sh : List String → List String),
        ∃ s1 es p, step (Event.setName sid name code board sh) s = some (s1, es) ∧
          mapGet s1.rooms code =
            some { id := code, players := [(sid, p)], gameState := initialGameState } ∧
          p.id = sid ∧ p.joined = true ∧ p.submitted = false) := by
  constructor
  · intro pre post code r u sid hpre hit hempty hnd
    constructor
    · simp only [step, handleDisconnect,
        disconnectRooms_delete sid pre post code r hpre hit hempty]
    · apply mapGet_eq_none_of_not_mem_keys
      simp only [List.map_append, List.map_cons] at hnd
      rcases List.nodup_append.mp hnd with ⟨h1, h2, h3⟩
      rcases List.nodup_cons.mp h2 with ⟨h4, h5⟩
      simp only [List.map_append, List.mem_append, not_or]
      exact ⟨fun hc => h3 hc (List.mem_cons_self _ _), h4⟩
  · intro s code habs sid name board sh
    refine ⟨_, _,
      { id := sid, name := name, submitted := false, joined := true,
        originalWord := (getRandomWords sh 1 s.usedWords).1.get? 0,
        rotation := none, drawing := none, assignedBoard := some board },
      rfl, ?_, rfl, rfl, rfl⟩
    simp only [step, handleSetPlayerName, getOrCreateRoom_of_absent habs, freshRoom]
    rw [mapGet_mapSet_self]
    rfl

end Krakel

namespace Krakel

/-- The single-player room of the C7 witness. -/
def C7room : Room :=
  { id := "R",
    players := [("p1",
      { id := "p1", name := "A", submitted := true, joined := true,
        originalWord := some "cat", rotation := some 0,
        drawing := some "d", assignedBoard := some "b1" })],
    gameState :=
      { allSubmitted := true,
        gameResults := some { drawings := [], allWords := ["cat", "dog"] },
        votingPhase := some
          { currentPlayerIndex := 0, votedWords := [], playerVotes := [],
            isComplete := false } } }

/-- C7 witness: the lifecycle theorem applied to a concrete room whose
only joined player disconnects mid-game, followed by a `setPlayerName`
with the same room code. -/
theorem C7_witness :
    (step (Event.disconnect "p1") { rooms := [("R", C7room)], usedWords := ["cat", "dog"] } =
      some ({ rooms := [], usedWords := ["cat", "dog"] }, []) ∧
     mapGet ([] : List (String × Room)) "R" = none) ∧
    (∃ s1 es p,
      step (Event.setName "p2" "B" "R" "b2" id)
          { rooms := [], usedWords := ["cat", "dog"] } = some (s1, es) ∧
      mapGet s1.rooms "R" =
        some { id := "R", players := [("p2", p)], gameState := initialGameState } ∧
      p.id = "p2" ∧ p.joined = true ∧ p.submitted = false) := by
  constructor
  · exact C7_room_lifecycle.1 [] [] "R" C7room ["cat", "dog"] "p1"
      (by intro cr hcr; cases hcr) (by decide) (by decide) (by decide)
  · exact C7_room_lifecycle.2 { rooms := [], usedWords := ["cat", "dog"] } "R"
      (by rfl) "p2" "B" "b2" id

end Krakel

namespace Krakel

theorem mem_setAdd {l : List String} {x w : String} (h : w ∈ setAdd l x) :
    w ∈ l ∨ w = x := by
  unfold setAdd at h
  by_cases hx : x ∈ l
  · rw [if_pos hx] at h
    exact Or.inl h
  · rw [if_neg hx] at h
    rcases List.mem_append.mp h with h1 | h1
    · exact Or.inl h1
    · exact Or.inr (List.mem_singleton.mp h1)

/-- C8 (amended): an accepted `voteWord` grows `eliminatedWords` by exactly
the client-supplied word — the handler performs no validation against
`allWords`, so the subset inclusion `eliminatedWords ⊆ allWords` holds
only if voters happen to choose listed words — and advances
`currentTurnIndex` by one, keeping it monotone and bounded by the CURRENT
joined-player count (hence by `turnOrder.length` whenever membership is
unchanged since the vote-start snapshot). -/
theorem C8_vote_invariants
    (s : ServerState) (code sid word : String) (r : Room) (vp : VotingPhase)
    (p cp : Player) (results : GameResults)
    (hr : mapGet s.rooms code = some r)
    (hvp : r.gameState.votingPhase = some vp)
    (hc : vp.isComplete = false)
    (hp : mapGet r.players sid = some p)
    (hj : p.joined = true)
    (hcp : (joinedList r.players).get? vp.currentPlayerIndex = some cp)
    (hid : cp.id = sid)
    (hres : r.gameState.gameResults = some results) :
    ∃ s1 es vp1,
      step (Event.vote sid word code) s = some (s1, es) ∧
      (mapGet s1.rooms code).map (fun rm => rm.gameState.votingPhase) = some (some vp1) ∧
      vp1.currentPlayerIndex = vp.currentPlayerIndex + 1 ∧
      vp.currentPlayerIndex < vp1.currentPlayerIndex ∧
      vp1.currentPlayerIndex ≤ (joinedList r.players).length ∧
      vp1.votedWords = setAdd vp.votedWords word ∧
      (∀ w1 ∈ vp1.votedWords, w1 ∈ vp.votedWords ∨ w1 = word) := by
  have hlt : vp.currentPlayerIndex < (joinedList r.players).length := by
    rcases List.get?_eq_some.mp hcp with ⟨h1, _⟩
    exact h1
  by_cases hend : (joinedList r.players).length ≤ vp.currentPlayerIndex + 1
  · refine ⟨_, _, advanceVp vp sid word true,
      vote_accepted_complete s code sid word r vp p cp results hr hvp hc hp hj hcp hid
        hend hres, ?_, rfl, Nat.lt_succ_self _, hlt, rfl, ?_⟩
    · simp only [voteResultState]
      rw [mapGet_mapSet_self]
      rfl
    · intro w1 h1
      exact mem_setAdd h1
  · have hlt1 : vp.currentPlayerIndex + 1 < (joinedList r.players).length := by omega
    obtain ⟨np, hnp⟩ : ∃ np, (joinedList r.players).get? (vp.currentPlayerIndex + 1) =
        some np := by
      rw [List.get?_eq_get hlt1]
      exact ⟨_, rfl⟩
    refine ⟨_, _, advanceVp vp sid word false,
      vote_accepted_next s code sid word r vp p cp np hr hvp hc hp hj hcp hid
        hlt1 hnp, ?_, rfl, Nat.lt_succ_self _, hlt, rfl, ?_⟩
    · simp only [voteResultState]
      rw [mapGet_mapSet_self]
      rfl
    · intro w1 h1
      exact mem_setAdd h1

end Krakel

namespace Krakel

/-- Event trace for the C8 counterexample: one player joins room S,
submits (voting starts over `allWords = ["cat", "dog"]`), then votes the
arbitrary string "zzz". -/
def C8trace : List Event :=
  [Event.setName "q1" "A" "S" "b1" id,
   Event.submit "q1" "d1" 0 "S" id,
   Event.vote "q1" "zzz" "S"]

/-- C8 counterexample: the vote for "zzz" is recorded although "zzz" is
not in the round's `allWords` list, so `eliminatedWords ⊆ allWords`
fails — the handler never validates the voted word. -/
theorem C8_counterexample :
    (run initState C8trace).map
      (fun r => (mapGet r.1.rooms "S").map
        (fun rm => (rm.gameState.votingPhase.map (fun vp => vp.votedWords),
                    rm.gameState.gameResults.map (fun g => g.allWords)))) =
      some (some (some ["zzz"], some ["cat", "dog"])) ∧
    "zzz" ∉ (["cat", "dog"] : List String) := by
  exact ⟨by decide, by decide⟩

/-- The two-player mid-vote room of the C8 witness. -/
def C8room : Room :=
  { id := "S8",
    players :=
      [("a", { id := "a", name := "A", submitted := true, joined := true,
               originalWord := some "cat", rotation := some 0,
               drawing := some "d", assignedBoard := some "b1" }),
       ("b", { id := "b", name := "B", submitted := true, joined := true,
               originalWord := some "dog", rotation := some 0,
               drawing := some "d", assignedBoard := some "b2" })],
    gameState :=
      { allSubmitted := true,
        gameResults := some { drawings := [], allWords := ["cat", "dog", "sun", "tree"] },
        votingPhase := some
          { currentPlayerIndex := 0, votedWords := [], playerVotes := [],
            isComplete := false } } }

/-- The C8 witness server state. -/
def C8state : ServerState :=
  { rooms := [("S8", C8room)], usedWords := ["cat", "dog", "sun", "tree"] }

/-- C8 witness: the vote-invariants theorem applied to a concrete accepted
vote (player a, at index 0 of two joined players, votes "sun"). -/
theorem C8_witness :
    ∃ s1 es vp1,
      step (Event.vote "a" "sun" "S8") C8state = some (s1, es) ∧
      (mapGet s1.rooms "S8").map (fun rm => rm.gameState.votingPhase) = some (some vp1) ∧
      vp1.currentPlayerIndex = 0 + 1 ∧
      0 < vp1.currentPlayerIndex ∧
      vp1.currentPlayerIndex ≤ (joinedList C8room.players).length ∧
      vp1.votedWords = setAdd [] "sun" ∧
      (∀ w1 ∈ vp1.votedWords, w1 ∈ ([] : List String) ∨ w1 = "sun") := by
  have h := C8_vote_invariants C8state "S8" "a" "sun" C8room
    { currentPlayerIndex := 0, votedWords := [], playerVotes := [], isComplete := false }
    (C8room.players.get ⟨0, by decide⟩).2 (C8room.players.get ⟨0, by decide⟩).2
    { drawings := [], allWords := ["cat", "dog", "sun", "tree"] }
    (by rfl) (by rfl) (by rfl) (by rfl) (by rfl) (by rfl) (by rfl) (by rfl)
  exact h

end Krakel

namespace Krakel

theorem vote_not_current
    (s : ServerState) (code sid word : String) (r : Room) (vp : VotingPhase)
    (p cp : Player)
    (hr : mapGet s.rooms code = some r)
    (hvp : r.gameState.votingPhase = some vp)
    (hc : vp.isComplete = false)
    (hp : mapGet r.players sid = some p)
    (hj : p.joined = true)
    (hcp : (joinedList r.players).get? vp.currentPlayerIndex = some cp)
    (hne : cp.id ≠ sid) :
    step (Event.vote sid word code) s = some (s, []) := by
  simp only [step, handleVoteWord, getOrCreateRoom_of_mem hr, hvp, hc, hp, hj,
    Bool.false_eq_true, if_false, if_true]
  rw [hcp]
  simp [hne]

/-- C5 (amended): the `voteWord` handler does NOT consult a stored
snapshot of the turn order; the current player, the completion bound and
the broadcast `totalPlayers` all come from the joined-player list of the
room AS IT IS at the moment the vote is processed.  This live list
coincides with the list snapshotted when voting started only while room
membership is unchanged: the handler itself never changes the player
registry (last conjunct), so the coincidence holds across vote-only
stretches, but joins, leaves and disconnects between votes shift both the
member identities and the length bound. -/
theorem C5_live_turn_order
    (s : ServerState) (code sid word : String) (r : Room) (vp : VotingPhase) (p : Player)
    (hr : mapGet s.rooms code = some r)
    (hvp : r.gameState.votingPhase = some vp)
    (hc : vp.isComplete = false)
    (hp : mapGet r.players sid = some p)
    (hj : p.joined = true) :
    (∀ cp, (joinedList r.players).get? vp.currentPlayerIndex = some cp → cp.id ≠ sid →
      step (Event.vote sid word code) s = some (s, [])) ∧
    (∀ cp results, (joinedList r.players).get? vp.currentPlayerIndex = some cp →
      cp.id = sid →
      (joinedList r.players).length ≤ vp.currentPlayerIndex + 1 →
      r.gameState.gameResults = some results →
      step (Event.vote sid word code) s =
        some (voteResultState s code r (advanceVp vp sid word true),
          [Emit.wordVotedOut code word p.name (setAdd vp.votedWords word),
           votingCompleteEmit code (joinedList r.players) (setAdd vp.votedWords word)
             results (mapSet vp.playerVotes sid word)])) ∧
    (∀ cp np, (joinedList r.players).get? vp.currentPlayerIndex = some cp →
      cp.id = sid →
      vp.currentPlayerIndex + 1 < (joinedList r.players).length →
      (joinedList r.players).get? (vp.currentPlayerIndex + 1) = some np →
      step (Event.vote sid word code) s =
        some (voteResultState s code r (advanceVp vp sid word false),
          [Emit.wordVotedOut code word p.name (setAdd vp.votedWords word),
           Emit.nextPlayerTurn code np.id np.name (vp.currentPlayerIndex + 1 + 1)
             (joinedList r.players).length])) ∧
    (∀ vp1 : VotingPhase,
      (mapGet (voteResultState s code r vp1).rooms code).map (fun rm => rm.players) =
        some r.players) := by
  refine ⟨?_, ?_, ?_, ?_⟩
  · intro cp hcp hne
    exact vote_not_current s code sid word r vp p cp hr hvp hc hp hj hcp hne
  · intro cp results hcp hid hge hres
    exact vote_accepted_complete s code sid word r vp p cp results hr hvp hc hp hj
      hcp hid hge hres
  · intro cp np hcp hid hlt hnp
    exact vote_accepted_next s code sid word r vp p cp np hr hvp hc hp hj hcp hid hlt hnp
  · intro vp1
    simp only [voteResultState]
    rw [mapGet_mapSet_self]
    rfl

end Krakel

namespace Krakel

/-- Event trace for the C5 counterexample: player p1 joins room R and
submits, so voting starts with the snapshot [p1] (`votingStarted` reports
`totalPlayers = 1`); then p2 joins mid-vote, p1 votes, and p2 votes. -/
def C5trace : List Event :=
  [Event.setName "p1" "A" "R" "b1" id,
   Event.submit "p1" "d1" 0 "R" id,
   Event.setName "p2" "B" "R" "b2" id,
   Event.vote "p1" "cat" "R",
   Event.vote "p2" "dog" "R"]

/-- C5 counterexample: the vote-start snapshot had one member (the
`votingStarted` broadcast carries `totalPlayers = 1`), yet p2 — who joined
only after voting started — is accepted as the second voter ("B" votes out
"dog") and the phase completes at index 2: the snapshot is NOT
authoritative, the live joined list is. -/
theorem C5_counterexample :
    (run initState C5trace).map
      (fun r => ((mapGet r.1.rooms "R").map (fun rm => rm.gameState.votingPhase),
                 decide (Emit.votingStarted "R" "p1" "A" 1 ["cat", "dog"] ∈ r.2),
                 decide (Emit.wordVotedOut "R" "dog" "B" ["cat", "dog"] ∈ r.2))) =
      some (some (some
        { currentPlayerIndex := 2, votedWords := ["cat", "dog"],
          playerVotes := [("p1", "cat"), ("p2", "dog")], isComplete := true }),
        true, true) := by decide

/-- The current player of the C5 witness room. -/
def C5playerA : Player :=
  { id := "a", name := "A", submitted := true, joined := true,
    originalWord := some "cat", rotation := some 0,
    drawing := some "d", assignedBoard := some "b1" }

/-- The out-of-turn caller of the C5 witness. -/
def C5playerB : Player :=
  { id := "b", name := "B", submitted := true, joined := true,
    originalWord := some "dog", rotation := some 0,
    drawing := some "d", assignedBoard := some "b2" }

/-- The C5 witness room: two joined players, voting at index 0. -/
def C5room : Room :=
  { id := "W5",
    players := [("a", C5playerA), ("b", C5playerB)],
    gameState :=
      { allSubmitted := true,
        gameResults := some { drawings := [], allWords := ["cat", "dog", "sun", "tree"] },
        votingPhase := some
          { currentPlayerIndex := 0, votedWords := [], playerVotes := [],
            isComplete := false } } }

/-- The C5 witness server state. -/
def C5state : ServerState :=
  { rooms := [("W5", C5room)], usedWords := ["cat", "dog", "sun", "tree"] }

/-- C5 witness: the live-turn-order theorem applied at a concrete state —
player b's vote is rejected because the live list's index-0 player is a. -/
theorem C5_witness :
    step (Event.vote "b" "sun" "W5") C5state = some (C5state, []) :=
  (C5_live_turn_order C5state "W5" "b" "sun" C5room
    { currentPlayerIndex := 0, votedWords := [], playerVotes := [], isComplete := false }
    C5playerB (by rfl) (by rfl) (by rfl) (by rfl) (by rfl)).1
    C5playerA (by rfl) (by decide)

end Krakel

namespace Krakel

/-- Apply `f` with a running counter, as the `joinedPlayers.forEach` of
`newRound` numbers the joined players. -/
def mapFrom (f : Nat → Player → Player) : Nat → List Player → List Player
  | _, [] => []
  | i, p :: rest => f i p :: mapFrom f (i + 1) rest

theorem joinedList_cons (k : String) (p : Player) (rest : List (String × Player)) :
    joinedList ((k, p) :: rest) =
      if p.joined then p :: joinedList rest else joinedList rest := by
  by_cases hj : p.joined
  · simp [joinedList, List.filter_cons, hj]
  · simp [joinedList, List.filter_cons, hj]

theorem joinedList_updateJoined (f : Nat → Player → Player)
    (hf : ∀ i p, (f i p).joined = p.joined) :
    ∀ (i : Nat) (ps : List (String × Player)),
      joinedList (updateJoined f i ps) = mapFrom f i (joinedList ps) := by
  intro i ps
  induction ps generalizing i with
  | nil => rfl
  | cons kp rest ih =>
    obtain ⟨k, p⟩ := kp
    by_cases hj : p.joined
    · rw [show updateJoined f i ((k, p) :: rest) = (k, f i p) :: updateJoined f (i + 1) rest
        by simp [updateJoined, hj]]
      rw [joinedList_cons, joinedList_cons, hf, if_pos hj, if_pos hj]
      simp only [mapFrom, ih]
    · rw [show updateJoined f i ((k, p) :: rest) = (k, p) :: updateJoined f i rest
        by simp [updateJoined, hj]]
      rw [joinedList_cons, joinedList_cons, if_neg hj, if_neg hj, ih]

theorem mapFrom_get? (f : Nat → Player → Player) :
    ∀ (l : List Player) (i j : Nat),
      (mapFrom f i l).get? j = (l.get? j).map (f (i + j)) := by
  intro l
  induction l with
  | nil => intro i j; cases j <;> rfl
  | cons p rest ih =>
    intro i j
    cases j with
    | zero => rfl
    | succ j =>
      show (mapFrom f (i + 1) rest).get? j = (rest.get? j).map (f (i + (j + 1)))
      rw [ih (i + 1) j]
      have h : i + 1 + j = i + (j + 1) := by omega
      rw [h]

theorem get?_map_board (g : Player → Option String) :
    ∀ (l : List Player) (i : Nat), (l.map g).get? i = (l.get? i).map g := by
  intro l
  induction l with
  | nil => intro i; cases i <;> rfl
  | cons p rest ih => intro i; cases i with
    | zero => rfl
    | succ i => exact ih i

/-- The room produced by an accepted `newRound`: game state reset, every
joined player unsubmitted with a fresh word and the next player's board. -/
def newRoundRoom (sh : List String → List String) (used : List String) (r : Room) : Room :=
  { r with
    players := updateJoined
      (rotatePlayer (getRandomWords sh (joinedList r.players).length used).1
        ((joinedList r.players).map (fun q => q.assignedBoard))
        (joinedList r.players).length) 0 r.players
    gameState := initialGameState }

theorem newRound_effect (s : ServerState) (code sid : String)
    (sh : List String → List String) (r : Room) (p : Player)
    (hr : mapGet s.rooms code = some r)
    (hp : mapGet r.players sid = some p)
    (hj : p.joined = true) :
    ∃ es, step (Event.newRound sid code sh) s =
      some ({ rooms := mapSet s.rooms code (newRoundRoom sh s.usedWords r),
              usedWords := (getRandomWords sh (joinedList r.players).length s.usedWords).2 },
        es) := by
  simp only [step, handleNewRound, getOrCreateRoom_of_mem hr, hp, newRoundRoom, hj,
    eq_self_iff_true, if_true]
  exact ⟨_, rfl⟩

end Krakel

namespace Krakel

theorem newRoundRoom_boards (sh : List String → List String) (used : List String)
    (r : Room) (i : Nat) (q : Player)
    (hq : (joinedList (newRoundRoom sh used r).players).get? i = some q) :
    q.assignedBoard =
      (((joinedList r.players).map (fun x => x.assignedBoard)).get?
        ((i + 1) % (joinedList r.players).length)).getD none := by
  have hjoined1 : joinedList (newRoundRoom sh used r).players =
      mapFrom (rotatePlayer (getRandomWords sh (joinedList r.players).length used).1
        ((joinedList r.players).map (fun q => q.assignedBoard))
        (joinedList r.players).length) 0 (joinedList r.players) := by
    apply joinedList_updateJoined
    intro i1 q1
    rfl
  rw [hjoined1, mapFrom_get?] at hq
  cases hts0 : (joinedList r.players).get? i with
  | none => rw [hts0] at hq; cases hq
  | some q0 =>
    rw [hts0] at hq
    simp only [Option.map_some', Option.some.injEq] at hq
    rw [← hq]
    simp [rotatePlayer, Nat.zero_add]

/-- C3 (amended): on an accepted `newRound`, the player at joined-position
`i` receives exactly the board previously held at position `(i+1) mod N` —
the permutation of POSITIONS is the canonical N-cycle.  The original
claim's further assertion that no player retains the board they personally
held holds only when the pre-rotation board VALUES are pairwise distinct
(second part); with duplicate assignments (possible, since boards are
chosen at random at join) a player can end up with the same board again. -/
theorem C3_board_rotation
    (s : ServerState) (code sid : String) (sh : List String → List String)
    (r : Room) (p : Player)
    (hr : mapGet s.rooms code = some r)
    (hp : mapGet r.players sid = some p)
    (hj : p.joined = true) :
    ∃ s1 es r1,
      step (Event.newRound sid code sh) s = some (s1, es) ∧
      mapGet s1.rooms code = some r1 ∧
      (∀ i q, (joinedList r1.players).get? i = some q →
        q.assignedBoard =
          (((joinedList r.players).map (fun x => x.assignedBoard)).get?
            ((i + 1) % (joinedList r.players).length)).getD none) ∧
      (((joinedList r.players).map (fun x => x.assignedBoard)).Nodup →
        2 ≤ (joinedList r.players).length →
        ∀ i q q0, (joinedList r1.players).get? i = some q →
          (joinedList r.players).get? i = some q0 →
          q.assignedBoard ≠ q0.assignedBoard) := by
  obtain ⟨es, hstep⟩ := newRound_effect s code sid sh r p hr hp hj
  refine ⟨_, es, newRoundRoom sh s.usedWords r, hstep, mapGet_mapSet_self _ _ _, ?_, ?_⟩
  · intro i q hq
    exact newRoundRoom_boards sh s.usedWords r i q hq
  · intro hnd hn2 i q q0 hq hq0 heq
    have hrot := newRoundRoom_boards sh s.usedWords r i q hq
    have hlen : ((joinedList r.players).map (fun x => x.assignedBoard)).length =
        (joinedList r.players).length := List.length_map _ _
    have hi : i < (joinedList r.players).length := by
      rcases List.get?_eq_some.mp hq0 with ⟨h1, _⟩
      exact h1
    have hnpos : 0 < (joinedList r.players).length := by omega
    have hmod : (i + 1) % (joinedList r.players).length <
        (joinedList r.players).length := Nat.mod_lt _ hnpos
    have hbi : ((joinedList r.players).map (fun x => x.assignedBoard)).get? i =
        some q0.assignedBoard := by
      rw [get?_map_board, hq0]
      rfl
    obtain ⟨b, hb⟩ : ∃ b, ((joinedList r.players).map (fun x => x.assignedBoard)).get?
        ((i + 1) % (joinedList r.players).length) = some b := by
      rw [List.get?_eq_get (by omega)]
      exact ⟨_, rfl⟩
    rw [hb] at hrot
    simp only [Option.getD_some] at hrot
    have hsame : ((joinedList r.players).map (fun x => x.assignedBoard)).get?
        ((i + 1) % (joinedList r.players).length) =
        ((joinedList r.players).map (fun x => x.assignedBoard)).get? i := by
      rw [hb, hbi, ← hrot, ← heq]
    have hij := List.get?_inj (by omega) hnd hsame
    rcases Nat.lt_or_ge (i + 1) (joinedList r.players).length with hlt | hge
    · rw [Nat.mod_eq_of_lt hlt] at hij
      omega
    · have h1 : i + 1 = (joinedList r.players).length := by omega
      rw [h1, Nat.mod_self] at hij
      omega

end Krakel

namespace Krakel

/-- Event trace for the C3 counterexample: two players join room T and the
random board pick hands BOTH the same board "bb"; then a new round starts. -/
def C3trace : List Event :=
  [Event.setName "r1" "A" "T" "bb" id,
   Event.setName "r2" "B" "T" "bb" id,
   Event.newRound "r1" "T" id]

/-- C3 counterexample: with duplicate board assignments the rotation has a
fixed point in board values — before and after `newRound` every joined
player holds board "bb", so each player draws on the very board they
personally held in the preceding round, refuting the no-fixed-point part
of the claim for N = 2 ≥ 2. -/
theorem C3_counterexample :
    (run initState (C3trace.take 2)).map
      (fun r => (mapGet r.1.rooms "T").map
        (fun rm => (joinedList rm.players).map (fun q => q.assignedBoard))) =
      some (some [some "bb", some "bb"]) ∧
    (run initState C3trace).map
      (fun r => (mapGet r.1.rooms "T").map
        (fun rm => (joinedList rm.players).map (fun q => q.assignedBoard))) =
      some (some [some "bb", some "bb"]) := by
  exact ⟨by decide, by decide⟩

/-- The requesting player of the C3 witness. -/
def C3playerA : Player :=
  { id := "a", name := "A", submitted := true, joined := true,
    originalWord := some "cat", rotation := some 0,
    drawing := some "d", assignedBoard := some "b1" }

/-- The C3 witness room: two joined players with distinct boards. -/
def C3room : Room :=
  { id := "T3",
    players :=
      [("a", C3playerA),
       ("b", { id := "b", name := "B", submitted := true, joined := true,
               originalWord := some "dog", rotation := some 0,
               drawing := some "d", assignedBoard := some "b2" })],
    gameState :=
      { allSubmitted := true,
        gameResults := some { drawings := [], allWords := ["cat", "dog"] },
        votingPhase := none } }

/-- The C3 witness server state. -/
def C3state : ServerState :=
  { rooms := [("T3", C3room)], usedWords := ["cat", "dog"] }

/-- C3 witness: the rotation theorem applied to a concrete two-player room
with distinct boards. -/
theorem C3_witness :
    ∃ s1 es r1,
      step (Event.newRound "a" "T3" id) C3state = some (s1, es) ∧
      mapGet s1.rooms "T3" = some r1 ∧
      (∀ i q, (joinedList r1.players).get? i = some q →
        q.assignedBoard =
          (((joinedList C3room.players).map (fun x => x.assignedBoard)).get?
            ((i + 1) % (joinedList C3room.players).length)).getD none) ∧
      (((joinedList C3room.players).map (fun x => x.assignedBoard)).Nodup →
        2 ≤ (joinedList C3room.players).length →
        ∀ i q q0, (joinedList r1.players).get? i = some q →
          (joinedList C3room.players).get? i = some q0 →
          q.assignedBoard ≠ q0.assignedBoard) :=
  C3_board_rotation C3state "T3" "a" id C3room C3playerA (by rfl) (by rfl) (by rfl)

end Krakel

namespace Krakel

theorem get?_mem_of_some {α : Type} :
    ∀ (l : List α) (i : Nat) (a : α), l.get? i = some a → a ∈ l := by
  intro l
  induction l with
  | nil => intro i a h; cases i <;> cases h
  | cons x rest ih =>
    intro i a h
    cases i with
    | zero =>
      simp only [List.get?, Option.some.injEq] at h
      subst h
      exact List.mem_cons_self _ _
    | succ i => exact List.mem_cons_of_mem _ (ih i a h)

theorem joined_of_mem_joinedList {ps : List (String × Player)} {q : Player}
    (h : q ∈ joinedList ps) : q.joined = true := by
  have := List.mem_filter.mp h
  exact this.2

theorem mapGet_of_mem_nodup {α : Type} :
    ∀ (m : List (String × α)) (k : String) (v : α),
      (m.map Prod.fst).Nodup → (k, v) ∈ m → mapGet m k = some v := by
  intro m
  induction m with
  | nil => intro k v _ h; cases h
  | cons kv rest ih =>
    intro k v hnd h
    obtain ⟨k0, v0⟩ := kv
    rcases List.nodup_cons.mp hnd with ⟨hk0, hnd1⟩
    rcases List.mem_cons.mp h with h1 | h1
    · injection h1 with ha hb
      subst ha
      subst hb
      simp [mapGet]
    · have hk : k0 ≠ k := by
        intro he
        subst he
        exact hk0 (List.mem_map.mpr ⟨(k0, v), h1, rfl⟩)
      simp only [mapGet, if_neg hk]
      exact ih k v hnd1 h1

theorem mapGet_of_WF_joined {ps : List (String × Player)} {q : Player}
    (hwf : WFplayers ps) (h : q ∈ joinedList ps) : mapGet ps q.id = some q := by
  have hq1 : q ∈ ps.map Prod.snd := (List.mem_filter.mp h).1
  rcases List.mem_map.mp hq1 with ⟨kp, hkp, hsnd⟩
  obtain ⟨k, q0⟩ := kp
  have hq0 : q0 = q := hsnd
  subst hq0
  have hid : q0.id = k := hwf.2 (k, q0) hkp
  rw [hid]
  exact mapGet_of_mem_nodup ps k q0 hwf.1 hkp

theorem drop_head_get? {α : Type} :
    ∀ (l : List α) (i : Nat) (a : α) (rest : List α),
      l.drop i = a :: rest → l.get? i = some a := by
  intro l
  induction l with
  | nil => intro i a rest h; rw [List.drop_nil] at h; cases h
  | cons x l1 ih =>
    intro i a rest h
    cases i with
    | zero =>
      simp only [List.drop_zero] at h
      cases h
      rfl
    | succ i => exact ih i a rest h

theorem drop_succ_of_drop {α : Type} :
    ∀ (l : List α) (i : Nat) (a : α) (rest : List α),
      l.drop i = a :: rest → l.drop (i + 1) = rest := by
  intro l
  induction l with
  | nil => intro i a rest h; rw [List.drop_nil] at h; cases h
  | cons x l1 ih =>
    intro i a rest h
    cases i with
    | zero =>
      simp only [List.drop_zero] at h
      cases h
      rfl
    | succ i => exact ih i a rest h

/-- The vote events of a full voting round: one `voteWord` per listed
player, in list order, with the corresponding word. -/
def voteEvents (code : String) : List Player → List String → List Event
  | p :: ps, w :: ws => Event.vote p.id w code :: voteEvents code ps ws
  | _, _ => []

/-- The eliminated-word set after casting the given words in order. -/
def elimAll (vw : List String) (ws : List String) : List String :=
  ws.foldl setAdd vw

theorem voteEvents_length (code : String) :
    ∀ (ps : List Player) (ws : List String), ws.length = ps.length →
      (voteEvents code ps ws).length = ps.length := by
  intro ps
  induction ps with
  | nil => intro ws h; cases ws <;> rfl
  | cons p rest ih =>
    intro ws h
    cases ws with
    | nil => cases h
    | cons w ws2 =>
      simp only [voteEvents, List.length_cons]
      rw [ih ws2 (by simpa using h)]

end Krakel

namespace Krakel

theorem voteRunAux (code : String) :
    ∀ (rest : List Player) (ws : List String) (s : ServerState) (r : Room) (i : Nat)
      (vw : List String) (pv : List (String × String)) (results : GameResults),
      mapGet s.rooms code = some r →
      WFplayers r.players →
      r.gameState.gameResults = some results →
      r.gameState.votingPhase = some ⟨i, vw, pv, false⟩ →
      (joinedList r.players).drop i = rest →
      rest ≠ [] →
      ws.length = rest.length →
      ∃ s1 es pv1,
        run s (voteEvents code rest ws) = some (s1, es) ∧
        mapGet s1.rooms code =
          some (withPhase r ⟨(joinedList r.players).length, elimAll vw ws, pv1, true⟩) ∧
        votingCompleteEmit code (joinedList r.players) (elimAll vw ws) results pv1 ∈ es := by
  intro rest
  induction rest with
  | nil => intro ws s r i vw pv results _ _ _ _ _ hne _; exact absurd rfl hne
  | cons p rest2 ih =>
    intro ws s r i vw pv results hr hwf hres hvp hdrop hne hlen
    cases ws with
    | nil => cases hlen
    | cons w ws2 =>
      have hget : (joinedList r.players).get? i = some p :=
        drop_head_get? (joinedList r.players) i p rest2 hdrop
      have hpmem : p ∈ joinedList r.players :=
        get?_mem_of_some (joinedList r.players) i p hget
      have hpj : p.joined = true := joined_of_mem_joinedList hpmem
      have hpget : mapGet r.players p.id = some p := mapGet_of_WF_joined hwf hpmem
      have hdl := congrArg List.length hdrop
      rw [List.length_drop] at hdl
      cases rest2 with
      | nil =>
        have hws2 : ws2 = [] := List.length_eq_zero.mp (by simpa using hlen)
        subst hws2
        have hlen1 : (joinedList r.players).length = i + 1 := by
          simp only [List.length_cons, List.length_nil] at hdl
          omega
        have hge : (joinedList r.players).length ≤ i + 1 := by omega
        have hstep := vote_accepted_complete s code p.id w r ⟨i, vw, pv, false⟩ p p
          results hr hvp rfl hpget hpj hget rfl hge hres
        have hrun1 : run s (voteEvents code [p] [w]) =
            some (voteResultState s code r (advanceVp ⟨i, vw, pv, false⟩ p.id w true),
              [Emit.wordVotedOut code w p.name (setAdd vw w),
               votingCompleteEmit code (joinedList r.players) (setAdd vw w) results
                 (mapSet pv p.id w)] ++ []) := by
          simp only [voteEvents, run, hstep]
        refine ⟨_, _, mapSet pv p.id w, hrun1, ?_, ?_⟩
        · simp only [voteResultState]
          rw [mapGet_mapSet_self]
          rw [hlen1]
          rfl
        · rw [List.append_nil]
          exact List.mem_cons_of_mem _ (List.mem_cons_self _ _)
      | cons p2 rest3 =>
        have hi : i < (joinedList r.players).length :=
          (List.get?_eq_some.mp hget).1
        have hlt : i + 1 < (joinedList r.players).length := by
          simp only [List.length_cons] at hdl
          omega
        have hdrop2 : (joinedList r.players).drop (i + 1) = p2 :: rest3 :=
          drop_succ_of_drop (joinedList r.players) i p (p2 :: rest3) hdrop
        have hget2 : (joinedList r.players).get? (i + 1) = some p2 :=
          drop_head_get? (joinedList r.players) (i + 1) p2 rest3 hdrop2
        have hstep := vote_accepted_next s code p.id w r ⟨i, vw, pv, false⟩ p p p2
          hr hvp rfl hpget hpj hget rfl hlt hget2
        have hr1 : mapGet (voteResultState s code r
            (advanceVp ⟨i, vw, pv, false⟩ p.id w false)).rooms code =
            some (withPhase r (advanceVp ⟨i, vw, pv, false⟩ p.id w false)) := by
          simp only [voteResultState]
          exact mapGet_mapSet_self _ _ _
        obtain ⟨s2, es2, pv1, hrun2, hmap2, hmem2⟩ :=
          ih ws2 (voteResultState s code r (advanceVp ⟨i, vw, pv, false⟩ p.id w false))
            (withPhase r (advanceVp ⟨i, vw, pv, false⟩ p.id w false))
            (i + 1) (setAdd vw w) (mapSet pv p.id w) results
            hr1 hwf hres rfl hdrop2 (by intro hx; cases hx) (by simpa using hlen)
        refine ⟨s2,
          [Emit.wordVotedOut code w p.name (setAdd vw w),
           Emit.nextPlayerTurn code p2.id p2.name (i + 1 + 1)
             (joinedList r.players).length] ++ es2, pv1, ?_, ?_, ?_⟩
        · simp only [voteEvents, run, hstep, hrun2]
        · exact hmap2
        · exact List.mem_append.mpr (Or.inr hmem2)

end Krakel

namespace Krakel

/-- C1 (amended): if a voting phase starts fresh (index 0, nothing
eliminated, results present) and the only events processed until its end
are the `voteWord` calls themselves — one per member of the joined-player
list at vote start (the turn order), in that order — then after exactly
`turnOrder.length` accepted votes the phase is complete, and the
`votingComplete` broadcast carries `score = correctWords/totalPlayers`
where `correctWords` counts the turn-order players' assigned words that
are not in the eliminated set and `totalPlayers = turnOrder.length` (last
conjunct, definitional in the handler's score computation).  The original
unconditional claim fails when membership changes mid-vote (see the
counterexample, where a mid-vote join defers completion). -/
theorem C1_voting_completes (code : String) (s : ServerState) (r : Room)
    (results : GameResults) (ws : List String)
    (hr : mapGet s.rooms code = some r)
    (hwf : WFplayers r.players)
    (hres : r.gameState.gameResults = some results)
    (hvp : r.gameState.votingPhase = some ⟨0, [], [], false⟩)
    (hne : joinedList r.players ≠ [])
    (hws : ws.length = (joinedList r.players).length) :
    ∃ s1 es pv1,
      (voteEvents code (joinedList r.players) ws).length =
        (joinedList r.players).length ∧
      run s (voteEvents code (joinedList r.players) ws) = some (s1, es) ∧
      mapGet s1.rooms code =
        some (withPhase r ⟨(joinedList r.players).length, elimAll [] ws, pv1, true⟩) ∧
      votingCompleteEmit code (joinedList r.players) (elimAll [] ws) results pv1 ∈ es ∧
      scoreOf (votingCompleteEmit code (joinedList r.players) (elimAll [] ws)
          results pv1) =
        some (toString ((((joinedList r.players).map (fun q => q.originalWord.getD ""))
              |>.filter (fun x => decide (x ≠ ""))
              |>.filter (fun x => decide (x ∉ elimAll [] ws))).length)
          ++ "/" ++ toString (joinedList r.players).length) := by
  obtain ⟨s1, es, pv1, h1, h2, h3⟩ :=
    voteRunAux code (joinedList r.players) ws s r 0 [] [] results hr hwf hres hvp
      rfl hne hws
  exact ⟨s1, es, pv1, voteEvents_length code _ ws hws, h1, h2, h3, rfl⟩

/-- Event trace for the C1 counterexample: a1 joins room Q and submits, so
voting starts with turn order [a1] (`votingStarted` reports
`totalPlayers = 1`); then a2 joins mid-vote and a1 casts the one vote. -/
def C1trace : List Event :=
  [Event.setName "a1" "N1" "Q" "bq" id,
   Event.submit "a1" "dq" 0 "Q" id,
   Event.setName "a2" "N2" "Q" "bq2" id,
   Event.vote "a1" "cat" "Q"]

/-- C1 counterexample: the vote-start turn order has length 1 (the
`votingStarted` broadcast carries `totalPlayers = 1`), and exactly one
vote — by the turn-order player, in turn order — has been accepted, yet
the phase is NOT complete (`isComplete = false`, index 1 < 2 live
players): completion is judged against the live joined list, so the claim
"complete after exactly turnOrder.length accepted votes" fails. -/
theorem C1_counterexample :
    (run initState C1trace).map
      (fun r => ((mapGet r.1.rooms "Q").map (fun rm => rm.gameState.votingPhase),
                 decide (Emit.votingStarted "Q" "a1" "N1" 1 ["cat", "dog"] ∈ r.2))) =
      some (some (some
        { currentPlayerIndex := 1, votedWords := ["cat"],
          playerVotes := [("a1", "cat")], isComplete := false }), true) := by decide

/-- The single voter of the C1 witness. -/
def C1player : Player :=
  { id := "a", name := "A", submitted := true, joined := true,
    originalWord := some "cat", rotation := some 0,
    drawing := some "d", assignedBoard := some "b1" }

/-- The C1 witness room: one joined player, fresh voting phase. -/
def C1room : Room :=
  { id := "C1R", players := [("a", C1player)],
    gameState :=
      { allSubmitted := true,
        gameResults := some { drawings := [], allWords := ["cat", "dog"] },
        votingPhase := some
          { currentPlayerIndex := 0, votedWords := [], playerVotes := [],
            isComplete := false } } }

/-- The C1 witness server state. -/
def C1state : ServerState :=
  { rooms := [("C1R", C1room)], usedWords := ["cat", "dog"] }

/-- C1 witness: the voting-run theorem applied to a concrete one-player
room; the single vote (for "sun") completes the phase and broadcasts the
completion payload. -/
theorem C1_witness :
    ∃ s1 es pv1,
      run C1state (voteEvents "C1R" (joinedList C1room.players) ["sun"]) =
        some (s1, es) ∧
      votingCompleteEmit "C1R" (joinedList C1room.players) (elimAll [] ["sun"])
        { drawings := [], allWords := ["cat", "dog"] } pv1 ∈ es := by
  obtain ⟨s1, es, pv1, _, h2, _, h4, _⟩ :=
    C1_voting_completes "C1R" C1state C1room
      { drawings := [], allWords := ["cat", "dog"] } ["sun"]
      (by rfl) (⟨by decide, by decide⟩) (by rfl) (by rfl) (by decide) (by decide)
  exact ⟨s1, es, pv1, h2, h4⟩

end Krakel

namespace Krakel

/-- Per-room index bound: an active incomplete voting phase indexes
strictly inside the room's current joined-player list. -/
def RoomInv (r : Room) : Prop :=
  ∀ vp : VotingPhase, r.gameState.votingPhase = some vp →
    vp.isComplete = false →
    vp.currentPlayerIndex < (joinedList r.players).length

/-- The index bound for every room of the server. -/
def VoteIdxInv (s : ServerState) : Prop :=
  ∀ cr ∈ s.rooms, RoomInv cr.2

theorem roomInv_fresh (code : String) : RoomInv (freshRoom code) := by
  intro vp hvp
  cases hvp

theorem joinedList_mapSet_length_ge (ps : List (String × Player)) (k : String)
    (q : Player) (hq : q.joined = true) :
    (joinedList ps).length ≤ (joinedList (mapSet ps k q)).length := by
  induction ps with
  | nil => simp [mapSet, joinedList, hq]
  | cons kp rest ih =>
    obtain ⟨k0, p0⟩ := kp
    by_cases hk : k0 = k
    · rw [show mapSet ((k0, p0) :: rest) k q = (k, q) :: rest from by simp [mapSet, hk]]
      rw [joinedList_cons, joinedList_cons, if_pos hq]
      by_cases hj : p0.joined
      · rw [if_pos hj]
        simp
      · rw [if_neg hj]
        simp only [List.length_cons]
        omega
    · rw [show mapSet ((k0, p0) :: rest) k q = (k0, p0) :: mapSet rest k q from by
        simp [mapSet, hk]]
      rw [joinedList_cons, joinedList_cons]
      by_cases hj : p0.joined
      · rw [if_pos hj, if_pos hj]
        simpa using ih
      · rw [if_neg hj, if_neg hj]
        exact ih

theorem getOrCreate_fst_inv {s : ServerState} (hs : VoteIdxInv s) (code : String) :
    RoomInv (getOrCreateRoom code s.rooms).1 := by
  cases hroom : mapGet s.rooms code with
  | none =>
    rw [getOrCreateRoom_of_absent hroom]
    exact roomInv_fresh code
  | some r0 =>
    rw [getOrCreateRoom_of_mem hroom]
    exact hs (code, r0) (mapGet_mem hroom)

theorem getOrCreate_snd_inv {s : ServerState} (hs : VoteIdxInv s) (code : String) :
    ∀ cr ∈ (getOrCreateRoom code s.rooms).2, RoomInv cr.2 := by
  cases hroom : mapGet s.rooms code with
  | none =>
    rw [getOrCreateRoom_of_absent hroom]
    intro cr hcr
    rcases mem_mapSet hcr with h1 | h1
    · subst h1
      exact roomInv_fresh code
    · exact hs cr h1
  | some r0 =>
    rw [getOrCreateRoom_of_mem hroom]
    exact hs

theorem inv_mapSet_rooms {rooms : List (String × Room)} {code : String} {r1 : Room}
    (hall : ∀ cr ∈ rooms, RoomInv cr.2) (h1 : RoomInv r1) :
    ∀ cr ∈ mapSet rooms code r1, RoomInv cr.2 := by
  intro cr hcr
  rcases mem_mapSet hcr with h2 | h2
  · subst h2
    exact h1
  · exact hall cr h2

end Krakel

namespace Krakel

theorem step_preserves_inv (e : Event) (he : e.isDisconnect = false)
    {s s1 : ServerState} {es : List Emit}
    (hs : VoteIdxInv s) (h : step e s = some (s1, es)) : VoteIdxInv s1 := by
  cases e with
  | disconnect sid => cases he
  | setName sid name code board sh =>
    simp only [step, handleSetPlayerName, Option.some.injEq, Prod.mk.injEq] at h
    obtain ⟨h1, h2⟩ := h
    subst h1
    intro cr hcr
    rcases mem_mapSet hcr with h3 | h3
    · subst h3
      intro vp hvp hcomp
      have hinv := getOrCreate_fst_inv hs code vp hvp hcomp
      calc vp.currentPlayerIndex
          < (joinedList (getOrCreateRoom code s.rooms).1.players).length := hinv
        _ ≤ _ := joinedList_mapSet_length_ge _ sid _ rfl
    · exact getOrCreate_snd_inv hs code cr h3
  | submit sid d rot code sh =>
    simp only [step, handleSubmitDrawing] at h
    split at h
    next heq =>
      simp only [Option.some.injEq, Prod.mk.injEq] at h
      obtain ⟨h1, h2⟩ := h
      subst h1
      exact fun cr hcr => getOrCreate_snd_inv hs code cr hcr
    next player heq =>
      split at h
      next hj =>
        split at h
        next hall =>
          split at h
          next hjoined => cases h
          next j0 rest hjoined =>
            simp only [Option.some.injEq, Prod.mk.injEq] at h
            obtain ⟨h1, h2⟩ := h
            subst h1
            intro cr hcr
            rcases mem_mapSet hcr with h3 | h3
            · subst h3
              intro vp hvp hcomp
              cases hvp
              rw [hjoined]
              simp
            · exact getOrCreate_snd_inv hs code cr h3
        next hall =>
          simp only [Option.some.injEq, Prod.mk.injEq] at h
          obtain ⟨h1, h2⟩ := h
          subst h1
          intro cr hcr
          rcases mem_mapSet hcr with h3 | h3
          · subst h3
            intro vp hvp hcomp
            have hinv := getOrCreate_fst_inv hs code vp hvp hcomp
            have hle := joinedList_mapSet_length_ge
              (getOrCreateRoom code s.rooms).1.players sid
              { player with submitted := true, drawing := some d, rotation := some rot } hj
            exact Nat.lt_of_lt_of_le hinv hle
          · exact getOrCreate_snd_inv hs code cr h3
      next hj =>
        simp only [Option.some.injEq, Prod.mk.injEq] at h
        obtain ⟨h1, h2⟩ := h
        subst h1
        exact fun cr hcr => getOrCreate_snd_inv hs code cr hcr
  | vote sid word code =>
    simp only [step, handleVoteWord] at h
    split at h
    next hvp0 =>
      simp only [Option.some.injEq, Prod.mk.injEq] at h
      obtain ⟨h1, h2⟩ := h
      subst h1
      exact fun cr hcr => getOrCreate_snd_inv hs code cr hcr
    next vp0 hvp0 =>
      split at h
      next hcomp0 =>
        simp only [Option.some.injEq, Prod.mk.injEq] at h
        obtain ⟨h1, h2⟩ := h
        subst h1
        exact fun cr hcr => getOrCreate_snd_inv hs code cr hcr
      next hcomp0 =>
        split at h
        next heq =>
          simp only [Option.some.injEq, Prod.mk.injEq] at h
          obtain ⟨h1, h2⟩ := h
          subst h1
          exact fun cr hcr => getOrCreate_snd_inv hs code cr hcr
        next player heq =>
          split at h
          next hj =>
            split at h
            next hcp => cases h
            next cp hcp =>
              split at h
              next hid =>
                split at h
                next hlen =>
                  split at h
                  next hres => cases h
                  next results hres =>
                    simp only [Option.some.injEq, Prod.mk.injEq] at h
                    obtain ⟨h1, h2⟩ := h
                    subst h1
                    intro cr hcr
                    rcases mem_mapSet hcr with h3 | h3
                    · subst h3
                      intro vp hvp hcomp
                      cases hvp
                      cases hcomp
                    · exact getOrCreate_snd_inv hs code cr h3
                next hlen =>
                  split at h
                  next hnp => cases h
                  next np hnp =>
                    simp only [Option.some.injEq, Prod.mk.injEq] at h
                    obtain ⟨h1, h2⟩ := h
                    subst h1
                    intro cr hcr
                    rcases mem_mapSet hcr with h3 | h3
                    · subst h3
                      intro vp hvp hcomp
                      cases hvp
                      simp only [Nat.not_le] at hlen
                      exact hlen
                    · exact getOrCreate_snd_inv hs code cr h3
              next hid =>
                simp only [Option.some.injEq, Prod.mk.injEq] at h
                obtain ⟨h1, h2⟩ := h
                subst h1
                exact fun cr hcr => getOrCreate_snd_inv hs code cr hcr
          next hj =>
            simp only [Option.some.injEq, Prod.mk.injEq] at h
            obtain ⟨h1, h2⟩ := h
            subst h1
            exact fun cr hcr => getOrCreate_snd_inv hs code cr hcr
  | newRound sid code sh =>
    simp only [step, handleNewRound] at h
    split at h
    next heq =>
      simp only [Option.some.injEq, Prod.mk.injEq] at h
      obtain ⟨h1, h2⟩ := h
      subst h1
      exact fun cr hcr => getOrCreate_snd_inv hs code cr hcr
    next player heq =>
      split at h
      next hj =>
        simp only [Option.some.injEq, Prod.mk.injEq] at h
        obtain ⟨h1, h2⟩ := h
        subst h1
        intro cr hcr
        rcases mem_mapSet hcr with h3 | h3
        · subst h3
          intro vp hvp hcomp
          cases hvp
        · exact getOrCreate_snd_inv hs code cr h3
      next hj =>
        simp only [Option.some.injEq, Prod.mk.injEq] at h
        obtain ⟨h1, h2⟩ := h
        subst h1
        exact fun cr hcr => getOrCreate_snd_inv hs code cr hcr
  | unsubmit sid code =>
    simp only [step, handleUnsubmit] at h
    split at h
    next heq =>
      simp only [Option.some.injEq, Prod.mk.injEq] at h
      obtain ⟨h1, h2⟩ := h
      subst h1
      exact fun cr hcr => getOrCreate_snd_inv hs code cr hcr
    next player heq =>
      split at h
      next hj =>
        simp only [Option.some.injEq, Prod.mk.injEq] at h
        obtain ⟨h1, h2⟩ := h
        subst h1
        intro cr hcr
        rcases mem_mapSet hcr with h3 | h3
        · subst h3
          intro vp hvp hcomp
          have hinv := getOrCreate_fst_inv hs code vp hvp hcomp
          have hle := joinedList_mapSet_length_ge
            (getOrCreateRoom code s.rooms).1.players sid
            { player with submitted := false, drawing := none } hj
          exact Nat.lt_of_lt_of_le hinv hle
        · exact getOrCreate_snd_inv hs code cr h3
      next hj =>
        simp only [Option.some.injEq, Prod.mk.injEq] at h
        obtain ⟨h1, h2⟩ := h
        subst h1
        exact fun cr hcr => getOrCreate_snd_inv hs code cr hcr

end Krakel

namespace Krakel

theorem run_preserves_inv :
    ∀ (tr : List Event) (s s1 : ServerState) (es : List Emit),
      (∀ e ∈ tr, e.isDisconnect = false) → VoteIdxInv s →
      run s tr = some (s1, es) → VoteIdxInv s1 := by
  intro tr
  induction tr with
  | nil =>
    intro s s1 es _ hs h
    simp only [run, Option.some.injEq, Prod.mk.injEq] at h
    obtain ⟨h1, _⟩ := h
    subst h1
    exact hs
  | cons e tr2 ih =>
    intro s s1 es hnd hs h
    simp only [run] at h
    cases hstep : step e s with
    | none =>
      simp only [hstep] at h
      exact Option.noConfusion h
    | some pair =>
      obtain ⟨sA, outA⟩ := pair
      simp only [hstep] at h
      have hsA := step_preserves_inv e (hnd e (List.mem_cons_self _ _)) hs hstep
      cases hrun : run sA tr2 with
      | none =>
        simp only [hrun] at h
        exact Option.noConfusion h
      | some pair2 =>
        obtain ⟨sB, outB⟩ := pair2
        simp only [hrun, Option.some.injEq, Prod.mk.injEq] at h
        obtain ⟨h1, _⟩ := h
        subst h1
        exact ih sA sB outB (fun x hx => hnd x (List.mem_cons_of_mem _ hx)) hsA hrun

/-- C10 (amended): in any execution from the initial state containing NO
disconnect events — player removal is the only operation that can shrink
a room's joined list under an active voting phase — every room with an
active, incomplete voting phase keeps `currentPlayerIndex` strictly below
the current joined-player count, so the `joinedPlayers[currentPlayerIndex]`
lookup of the `voteWord` handler yields a player and the `.id` field
access cannot dereference an absent value.  After a disconnect the bound
can fail and the handler crashes (see the counterexample). -/
theorem C10_lookup_safe_without_removals (tr : List Event)
    (hnd : ∀ e ∈ tr, e.isDisconnect = false) (s : ServerState) (es : List Emit)
    (h : run initState tr = some (s, es))
    (code : String) (r : Room) (vp : VotingPhase)
    (hr : mapGet s.rooms code = some r)
    (hvp : r.gameState.votingPhase = some vp)
    (hcomp : vp.isComplete = false) :
    vp.currentPlayerIndex < (joinedList r.players).length ∧
    ((joinedList r.players).get? vp.currentPlayerIndex).isSome = true := by
  have hinv : VoteIdxInv s :=
    run_preserves_inv tr initState s es hnd (fun cr hcr => absurd hcr (List.not_mem_nil _)) h
  have h1 := hinv (code, r) (mapGet_mem hr) vp hvp hcomp
  refine ⟨h1, ?_⟩
  rw [List.get?_eq_get h1]
  rfl

/-- Event trace for the C10 counterexample: two players join room D and
submit (voting starts), p1 votes (index advances to 1), p1 disconnects
(one joined player remains), and then p2 — a joined player, while voting
is active and incomplete — votes. -/
def C10trace : List Event :=
  [Event.setName "p1" "A" "D" "b1" id,
   Event.setName "p2" "B" "D" "b2" id,
   Event.submit "p1" "d1" 0 "D" id,
   Event.submit "p2" "d2" 0 "D" id,
   Event.vote "p1" "cat" "D",
   Event.disconnect "p1",
   Event.vote "p2" "dog" "D"]

/-- C10 counterexample: after p1's disconnect the room still has an
active incomplete phase at index 1 but only one joined player, and p2's
`voteWord` — which passes every rejection check — dereferences
`joinedPlayers[1].id` on an absent element: the run crashes (`none`),
refuting the claim that the index stays below the joined count after
disconnects. -/
theorem C10_counterexample :
    (run initState (C10trace.take 6)).map
      (fun r => (mapGet r.1.rooms "D").map
        (fun rm => (rm.gameState.votingPhase, (joinedList rm.players).length))) =
      some (some (some
        { currentPlayerIndex := 1, votedWords := ["cat"],
          playerVotes := [("p1", "cat")], isComplete := false }, 1)) ∧
    run initState C10trace = none := by
  exact ⟨by decide, by decide⟩

/-- Trace of the C10 witness: a single player joins room Z and submits,
leaving an active incomplete voting phase at index 0. -/
def C10wtrace : List Event :=
  [Event.setName "z1" "A" "Z" "bz" id,
   Event.submit "z1" "dz" 0 "Z" id]

/-- The server state reached by the C10 witness trace. -/
def C10wstate : ServerState :=
  ((run initState C10wtrace).getD (initState, [])).1

/-- The emits produced by the C10 witness trace. -/
def C10wes : List Emit :=
  ((run initState C10wtrace).getD (initState, [])).2

/-- The room of the C10 witness state. -/
def C10wroom : Room :=
  (mapGet C10wstate.rooms "Z").getD (freshRoom "Z")

/-- C10 witness: the lookup-safety theorem applied to the concrete
disconnect-free trace `C10wtrace` and its reached room. -/
theorem C10_witness :
    (0 : Nat) < (joinedList C10wroom.players).length ∧
    ((joinedList C10wroom.players).get? 0).isSome = true :=
  C10_lookup_safe_without_removals C10wtrace (by decide) C10wstate C10wes (by rfl)
    "Z" C10wroom
    { currentPlayerIndex := 0, votedWords := [], playerVotes := [], isComplete := false }
    (by rfl) (by rfl) (by rfl)

end Krakel
